import Mathlib

/-!
Shallow embedding of the React adapter modules of the
`maptiler-geocoding-control` repository:

* `src/react.ts`      — the extended variant (`ReactGeocodingControl`)
* `src/lib/react.ts`  — the base variant (`ReactGeocodingControl`)

Both modules wrap an external Svelte component (`GeocodingControl.svelte`,
not part of the sources): they construct it on mount, forward changed
options with `$set`, wire `on<Event>` callback props to `$on`
subscriptions, expose an imperative ref handle, and `$destroy` on unmount.

JavaScript values held in props are modelled by an opaque identity `Value`
(a `Nat`); equality of `Value`s models JavaScript reference equality
(`Object.is`), which is what React uses to compare effect dependencies.
A props object is an association list from property-name strings to
values; `undefined` entries are simply absent (`lookupBag` returns
`none`).  The wrapped Svelte component is external to the repository, so
its `$set` / `$on` / `$destroy` surface is modelled from the spec (§6);
the adapter logic itself is translated directly from the two TypeScript
modules.
-/

namespace GeocodingAdapter

/-- Opaque identity of a JavaScript value; equality models `Object.is`
(reference equality), the comparison React applies to effect deps and the
adapter applies via `!== undefined` checks. -/
abbrev Value := Nat

/-- A JavaScript object used as a props / options bag: an association list
from property names to value identities.  A key that is absent models an
`undefined` property. -/
abbrev Bag := List (String × Value)

/-- Property access `bag[key]`: the value of the first entry with the key,
`none` when the key is absent (i.e. `undefined`). -/
def lookupBag (b : Bag) (k : String) : Option Value :=
  (b.find? (fun e => e.1 == k)).map (fun e => e.2)

/-- JavaScript `delete bag[key]`: removes every entry with the key. -/
def deleteKey (b : Bag) (k : String) : Bag :=
  b.filter (fun e => e.1 != k)

/-- `eventNames` from `src/react.ts` lines 22-31 and `src/lib/react.ts`
lines 22-31 (identical in both variants). -/
def eventNames : List String :=
  ["featuresListed", "featuresMarked", "optionsVisibilityChange", "pick",
   "queryChange", "response", "reverseToggle", "select"]

/-- `propertyNames` from `src/react.ts` lines 37-65 (extended variant). -/
def extPropertyNames : List String :=
  ["adjustUrlQuery", "apiKey", "bbox", "clearButtonTitle", "clearOnBlur",
   "collapsed", "country", "debounceSearch", "enableReverse",
   "errorMessage", "excludeTypes", "filter", "fuzzyMatch", "language",
   "limit", "mapController", "minLength", "noResultsMessage",
   "pickedResultStyle", "placeholder", "proximity", "reverseActive",
   "reverseButtonTitle", "showPlaceType", "showResultsWhileTyping",
   "types", "zoom"]

/-- `propertyNames` from `src/lib/react.ts` lines 37-63 (base variant). -/
def basePropertyNames : List String :=
  ["apiKey", "bbox", "clearButtonTitle", "clearOnBlur", "collapsed",
   "country", "debounceSearch", "enableReverse", "errorMessage", "filter",
   "fuzzyMatch", "language", "limit", "minLength", "noResultsMessage",
   "placeholder", "proximity", "reverseButtonTitle", "showFullGeometry",
   "showPlaceType", "showResultsWhileTyping", "trackProximity", "types",
   "zoom", "mapController"]

/-- `getEventFnName` from `src/react.ts` lines 67-71 / `src/lib/react.ts`
lines 65-69: `"on" + name[0].toUpperCase() + name.slice(1)` — the first
character uppercased, the remaining characters unchanged, prefixed with
`"on"` (stated over the string's character list). -/
def getEventFnName (name : String) : String :=
  match name.data with
  | [] => "on"
  | c :: rest => String.mk ('o' :: 'n' :: c.toUpper :: rest)

/-- The two modules differ in how the per-event `useEffect` treats the
`$on` result: `src/react.ts` returns `eventHandlerFn &&
controlRef.current?.$on(...)` from the effect, so the subscription's
unsubscriber becomes the React cleanup; `src/lib/react.ts` calls
`controlRef.current?.$on(eventName, ...)` inside a block body and returns
nothing, so no cleanup is ever registered. -/
inductive EventEffectStyle where
  | returnUnsub
  | fireAndForget
deriving DecidableEq, Repr

/-- One adapter module: its forwardable option list, its event list and
its event-effect style. -/
structure Variant where
  propertyNames : List String
  eventNames : List String
  style : EventEffectStyle
deriving DecidableEq, Repr

/-- The extended variant, `src/react.ts`. -/
def reactExt : Variant :=
  ⟨extPropertyNames, eventNames, .returnUnsub⟩

/-- The base variant, `src/lib/react.ts`. -/
def reactBase : Variant :=
  ⟨basePropertyNames, eventNames, .fireAndForget⟩

/-- `const options = { ...props }; for (const eventName of eventNames)
delete options[getEventFnName(eventName)];` — `src/react.ts` lines
96-101 / `src/lib/react.ts` lines 88-92. -/
def stripCallbacks (v : Variant) (props : Bag) : Bag :=
  v.eventNames.foldl (fun o n => deleteKey o (getEventFnName n)) props

theorem lookup_cons (e : String × Value) (rest : Bag) (j : String) :
    lookupBag (e :: rest) j =
      if e.1 = j then some e.2 else lookupBag rest j := by
  by_cases h : e.1 = j
  · simp [lookupBag, List.find?_cons_of_pos, h]
  · simp [lookupBag, List.find?_cons_of_neg, h]

theorem deleteKey_cons (e : String × Value) (rest : Bag) (k : String) :
    deleteKey (e :: rest) k =
      if e.1 = k then deleteKey rest k else e :: deleteKey rest k := by
  by_cases h : e.1 = k <;> simp [deleteKey, List.filter_cons, h]

theorem lookup_deleteKey (b : Bag) (k j : String) :
    lookupBag (deleteKey b k) j = if j = k then none else lookupBag b j := by
  induction b with
  | nil => simp [deleteKey, lookupBag]
  | cons e rest ih =>
    rw [deleteKey_cons]
    by_cases hek : e.1 = k
    · rw [if_pos hek, ih, lookup_cons]
      by_cases hjk : j = k
      · simp [hjk]
      · have hej : ¬ e.1 = j := fun h => hjk (by rw [← h, hek])
        simp [hjk, hej]
    · rw [if_neg hek, lookup_cons, lookup_cons]
      by_cases hej : e.1 = j
      · have hjk : ¬ j = k := fun h => hek (by rw [hej, h])
        simp [hej, hjk]
      · simp [hej, ih]

theorem lookup_foldl_deleteKey (names : List String) (props : Bag)
    (k : String) :
    lookupBag (names.foldl (fun o n => deleteKey o (getEventFnName n)) props)
        k =
      if k ∈ names.map getEventFnName then none else lookupBag props k := by
  induction names generalizing props with
  | nil => simp
  | cons n rest ih =>
    simp only [List.foldl, List.map, List.mem_cons]
    rw [ih]
    by_cases hk : k ∈ rest.map getEventFnName
    · simp [hk]
    · by_cases hkn : k = getEventFnName n <;>
        simp [hk, hkn, lookup_deleteKey]

/-- Modelled from the spec: one live subscription of the wrapped
component's event mechanism (`instance.$on(eventName, handler)` returns an
unsubscriber, spec §6). -/
structure Sub where
  subId : Nat
  instId : Nat
  eventName : String
  handler : Value
deriving DecidableEq, Repr

/-- Modelled from the spec: the external wrapped component
(`GeocodingControl.svelte`, out of scope per spec §1): instances that can
be constructed and destroyed, and the registry of live event
subscriptions. -/
structure World where
  nextInstId : Nat
  alive : List Nat
  subs : List Sub
  nextSubId : Nat
deriving DecidableEq, Repr

def World.empty : World := ⟨0, [], [], 0⟩

/-- One call made by the adapter to the wrapped instance, as recorded in
the trace of a lifecycle. -/
inductive ICall where
  | construct (id : Nat) (props : Bag)
  | set (id : Nat) (name : String) (val : Value)
  | on (id : Nat) (eventName : String) (handler : Option Value)
  | unsub (subId : Nat) (eventName : String)
  | destroy (id : Nat)
deriving DecidableEq, Repr

/-- Modelled from the spec: `new GeocodingControl({target, props})`
creates a fresh live instance (spec §6). -/
def World.construct (w : World) : Nat × World :=
  (w.nextInstId,
   { w with nextInstId := w.nextInstId + 1,
            alive := w.nextInstId :: w.alive })

/-- Modelled from the spec: `instance.$destroy()` (spec §6). -/
def World.destroy (w : World) (id : Nat) : World :=
  { w with alive := w.alive.erase id }

/-- Modelled from the spec: `instance.$on(eventName, handler)` registers a
subscription and returns an unsubscriber (spec §6). -/
def World.subscribe (w : World) (id : Nat) (eventName : String)
    (handler : Value) : Nat × World :=
  (w.nextSubId,
   { w with subs := w.subs ++ [⟨w.nextSubId, id, eventName, handler⟩],
            nextSubId := w.nextSubId + 1 })

/-- Modelled from the spec: invoking the unsubscriber returned by `$on`
removes that subscription (spec §6). -/
def World.unsubscribe (w : World) (subId : Nat) : World :=
  { w with subs := w.subs.filter (fun sub => sub.subId != subId) }

/-- The live subscriptions of instance `id` for event `eventName`. -/
def subsFor (w : World) (id : Nat) (eventName : String) : List Sub :=
  w.subs.filter (fun sub => sub.instId == id && sub.eventName == eventName)

/-- The adapter's persistent React state between commits:
`controlRef.current`; the previous committed render's props (React keeps
each effect's dependency array from the last render — every dependency in
these modules is a props lookup, so the previous props bag captures them
all; `none` before the first commit); and the cleanup stored by each
per-event effect (the pending unsubscriber's subscription id), parallel
to the variant's `eventNames`. -/
structure AdapterState where
  ctrl : Option Nat
  prevProps : Option Bag
  eventCleanups : List (Option Nat)
deriving DecidableEq, Repr

/-- React re-runs an effect when its dependency array changed under
`Object.is` comparison, and always on the first render. -/
def depsChanged (prev : Option Bag) (props : Bag) (key : String) : Bool :=
  match prev with
  | none => true
  | some p => lookupBag p key != lookupBag props key

/-- The per-option `useEffect` loop (`src/react.ts` lines 119-125 /
`src/lib/react.ts` lines 110-116): for each forwardable option name, an
effect with dependency `[props[propName]]` whose body calls
`controlRef.current.$set({[propName]: props[propName]})` provided the
control exists and the value is not `undefined`.  Returns the `$set`
calls emitted this commit (these effects store no cleanup and do not
touch the world's instance or subscription state). -/
def runPropEffects (control : Option Nat) (prev : Option Bag) (props : Bag)
    (names : List String) : List ICall :=
  names.filterMap fun name =>
    if depsChanged prev props name then
      match control, lookupBag props name with
      | some cid, some val => some (.set cid name val)
      | _, _ => none
    else none

/-- The body of one per-event `useEffect` run.  In the `returnUnsub`
style (`src/react.ts` lines 131-139) the body is `eventHandlerFn &&
controlRef.current?.$on(eventName, trampoline)`, whose value the effect
returns: when a handler is present and the control exists, the
subscription's unsubscriber becomes the stored cleanup.  In the
`fireAndForget` style (`src/lib/react.ts` lines 122-131) the body calls
`controlRef.current?.$on(eventName, handler ? trampoline : undefined)`
inside a block and returns nothing, so no cleanup is ever stored.
Returns (stored cleanup, world, emitted calls). -/
def runOneEventEffect (style : EventEffectStyle) (control : Option Nat)
    (name : String) (handler : Option Value) (w : World) :
    Option Nat × World × List ICall :=
  match style with
  | .returnUnsub =>
    match handler, control with
    | some h, some cid =>
      (some (w.subscribe cid name h).1, (w.subscribe cid name h).2,
        [.on cid name (some h)])
    | _, _ => (none, w, [])
  | .fireAndForget =>
    match control with
    | some cid =>
      match handler with
      | some h =>
        (none, (w.subscribe cid name h).2, [.on cid name (some h)])
      | none => (none, w, [.on cid name none])
    | none => (none, w, [])

/-- React's invocation of a stored effect cleanup before an effect
re-runs (and at unmount): in these modules a stored cleanup is always a
subscription's unsubscriber. -/
def runCleanup (name : String) (stored : Option Nat) (w : World) :
    World × List ICall :=
  match stored with
  | some sid => (w.unsubscribe sid, [ICall.unsub sid name])
  | none => (w, [])

/-- The per-event `useEffect` loop (`src/react.ts` lines 128-140 /
`src/lib/react.ts` lines 119-132) under React's effect protocol: each
event's effect has dependency `[props[getEventFnName(eventName)]]` and
re-runs when that handler reference changed (always on the first render);
before the re-run, React invokes the cleanup stored by the effect's
previous run.  Arguments: remaining event names, their stored cleanups
(parallel list), the world.  Returns the new stored cleanups, the world
and the emitted calls. -/
def runEventEffects (style : EventEffectStyle) (control : Option Nat)
    (prev : Option Bag) (props : Bag) :
    List String → List (Option Nat) → World →
      List (Option Nat) × World × List ICall
  | [], _, w => ([], w, [])
  | name :: rest, cls, w =>
    if depsChanged prev props (getEventFnName name) then
      let c1 := runCleanup name (cls.headD none) w
      let c2 := runOneEventEffect style control name
        (lookupBag props (getEventFnName name)) c1.1
      let c3 := runEventEffects style control prev props rest cls.tail c2.2.1
      (c2.1 :: c3.1, c3.2.1, c1.2 ++ c2.2.2 ++ c3.2.2)
    else
      let c3 := runEventEffects style control prev props rest cls.tail w
      (cls.headD none :: c3.1, c3.2.1, c3.2.2)

/-- The adapter's only throw: `if (!divRef.current) throw new Error()`
(`src/react.ts` lines 104-106 / `src/lib/react.ts` lines 95-97). -/
inductive AdapterError where
  | missingHostNode
deriving DecidableEq, Repr

/-- The adapter's state before its first commit: no control instance, no
previous render, no stored event cleanups. -/
def initState (v : Variant) : AdapterState :=
  ⟨none, none, List.replicate v.eventNames.length none⟩

/-- One committed render cycle of `ReactGeocodingControl` under React's
effect protocol.  On the first commit (`prevProps = none`) the mount
effect (`src/react.ts` lines 103-116 / `src/lib/react.ts` lines 94-107)
runs first: it throws when the host div is absent, and otherwise
constructs the wrapped instance with the callback-stripped props and
stores it in `controlRef`; on later commits its empty dependency array
keeps it from re-running.  The per-option effects and then the per-event
effects run in declaration order.  Returns the new state, the world, and
the calls made to the wrapped instance during this commit, in order. -/
def commitRender (v : Variant) (divPresent : Bool) (s : AdapterState)
    (w : World) (props : Bag) :
    Except AdapterError (AdapterState × World × List ICall) :=
  match s.prevProps with
  | none =>
    if divPresent then
      let (cid, w0) := w.construct
      let setsEmitted := runPropEffects (some cid) none props v.propertyNames
      let (cls, w1, evCalls) :=
        runEventEffects v.style (some cid) none props v.eventNames
          s.eventCleanups w0
      .ok (⟨some cid, some props, cls⟩, w1,
        .construct cid (stripCallbacks v props) :: (setsEmitted ++ evCalls))
    else .error .missingHostNode
  | some prev =>
    let setsEmitted := runPropEffects s.ctrl (some prev) props v.propertyNames
    let (cls, w1, evCalls) :=
      runEventEffects v.style s.ctrl (some prev) props v.eventNames
        s.eventCleanups w
    .ok (⟨s.ctrl, some props, cls⟩, w1, setsEmitted ++ evCalls)

/-- The initial mount commit, from the pristine adapter and world. -/
def mountAdapter (v : Variant) (divPresent : Bool) (props : Bag) :
    Except AdapterError (AdapterState × World × List ICall) :=
  commitRender v divPresent (initState v) World.empty props

/-- One step of the unmount cleanup fold: run a stored per-event
unsubscriber, if any. -/
def unmountStep (acc : World × List ICall) (p : String × Option Nat) :
    World × List ICall :=
  match p.2 with
  | some sid => (acc.1.unsubscribe sid, acc.2 ++ [ICall.unsub sid p.1])
  | none => acc

/-- Unmounting the adapter: React runs the stored effect cleanups in
declaration order — the mount effect's `() => control.$destroy()` first,
then (when present) each per-event unsubscriber. -/
def unmountAdapter (v : Variant) (s : AdapterState) (w : World) :
    World × List ICall :=
  let start :=
    match s.ctrl with
    | some cid => (w.destroy cid, [ICall.destroy cid])
    | none => (w, [])
  (v.eventNames.zip s.eventCleanups).foldl unmountStep start

/-- The re-render commits after the first: prop updates applied in
order, accumulating the call trace. -/
def runUpdates (v : Variant) (s : AdapterState) (w : World) :
    List Bag → Except AdapterError (AdapterState × World × List ICall)
  | [] => .ok (s, w, [])
  | props :: rest =>
    match commitRender v true s w props with
    | .error e => .error e
    | .ok (s1, w1, t1) =>
      match runUpdates v s1 w1 rest with
      | .error e => .error e
      | .ok (s2, w2, t2) => .ok (s2, w2, t1 ++ t2)

/-- A full mounted lifecycle prefix: the initial mount with `props0`
followed by the re-render updates, accumulating the call trace. -/
def runAdapter (v : Variant) (divPresent : Bool) (props0 : Bag)
    (updates : List Bag) :
    Except AdapterError (AdapterState × World × List ICall) :=
  match mountAdapter v divPresent props0 with
  | .error e => .error e
  | .ok (s1, w1, t1) =>
    match runUpdates v s1 w1 updates with
    | .error e => .error e
    | .ok (s2, w2, t2) => .ok (s2, w2, t1 ++ t2)

/-- Is this call an `$set` (property update) call? -/
def isSetCall : ICall → Bool
  | .set _ _ _ => true
  | _ => false

/-- The `$set` calls of a trace. -/
def setCallList (calls : List ICall) : List ICall := calls.filter isSetCall

/-- The `$set` calls of a trace whose one-key payload is for `name`. -/
def setCallsFor (name : String) (calls : List ICall) : List ICall :=
  calls.filter fun c =>
    match c with
    | .set _ n _ => n == name
    | _ => false

/-- The subscription-related calls (`$on` / unsubscribe) of a trace that
concern event `name`. -/
def eventCallsFor (name : String) (calls : List ICall) : List ICall :=
  calls.filter fun c =>
    match c with
    | .on _ n _ => n == name
    | .unsub _ n => n == name
    | _ => false

/-- Is this call a `new GeocodingControl(...)` construction? -/
def isConstructCall : ICall → Bool
  | .construct _ _ => true
  | _ => false

/-- Is this call an `instance.$destroy()`? -/
def isDestroyCall : ICall → Bool
  | .destroy _ => true
  | _ => false

/-- A delegated call to an imperative method of the wrapped instance. -/
inductive MethodCall where
  | focus (id : Nat)
  | blur (id : Nat)
  | setQuery (id : Nat) (value : String) (submit : Bool)
  | clearMap (id : Nat)
  | clearList (id : Nat)
deriving DecidableEq, Repr

/-- The ref handle of the extended variant (`src/react.ts` lines
142-149): the object `{setQuery, clearMap, clearList, focus, blur}`
installed by `useImperativeHandle`.  Each method returns the call it
delegates to the wrapped instance, or `none` — a silent no-op — when
`controlRef.current` is unset (the `?.` optional chaining). -/
structure ExtHandle where
  setQuery : String → Option Bool → Option MethodCall
  clearMap : Unit → Option MethodCall
  clearList : Unit → Option MethodCall
  focus : Unit → Option MethodCall
  blur : Unit → Option MethodCall

/-- `src/react.ts` lines 142-149; `setQuery: (value, submit = true) =>
controlRef.current?.setQuery(value, submit)` — an omitted second argument
defaults to `true`. -/
def mkExtHandle (control : Option Nat) : ExtHandle where
  setQuery := fun value submit =>
    control.map fun cid => .setQuery cid value (submit.getD true)
  clearMap := fun _ => control.map fun cid => .clearMap cid
  clearList := fun _ => control.map fun cid => .clearList cid
  focus := fun _ => control.map fun cid => .focus cid
  blur := fun _ => control.map fun cid => .blur cid

/-- The ref handle of the base variant (`src/lib/react.ts` lines
134-139): the object `{setQuery, focus, blur}`. -/
structure BaseHandle where
  setQuery : String → Option Bool → Option MethodCall
  focus : Unit → Option MethodCall
  blur : Unit → Option MethodCall

/-- `src/lib/react.ts` lines 134-139. -/
def mkBaseHandle (control : Option Nat) : BaseHandle where
  setQuery := fun value submit =>
    control.map fun cid => .setQuery cid value (submit.getD true)
  focus := fun _ => control.map fun cid => .focus cid
  blur := fun _ => control.map fun cid => .blur cid

/-- Claim C9: for every enumerated event name, the adapter's callback
property name is `"on"` followed by the event name with its first letter
capitalized and the rest unchanged; in particular `select ↦ onSelect` and
`queryChange ↦ onQueryChange`. -/
theorem C9_callback_prop_naming :
    eventNames.map getEventFnName =
      ["onFeaturesListed", "onFeaturesMarked", "onOptionsVisibilityChange",
       "onPick", "onQueryChange", "onResponse", "onReverseToggle",
       "onSelect"] ∧
    ∀ name ∈ eventNames,
      (getEventFnName name).data =
        'o' :: 'n' :: name.data.headI.toUpper :: name.data.tail := by
  exact ⟨by decide, by decide⟩

/-- Claim C9 witness: the two examples named by the claim, obtained from
the theorem at the concrete event names. -/
theorem C9_callback_prop_naming_witness :
    (getEventFnName "select").data =
      'o' :: 'n' :: "select".data.headI.toUpper :: "select".data.tail ∧
    (getEventFnName "queryChange").data =
      'o' :: 'n' :: "queryChange".data.headI.toUpper ::
        "queryChange".data.tail := by
  exact ⟨C9_callback_prop_naming.2 "select" (by decide),
         C9_callback_prop_naming.2 "queryChange" (by decide)⟩

/-- Claim C4: the bag passed to the wrapped instance's constructor on
mount is the incoming props bag with every callback-shaped key
(`"on" + capitalized event name`, over the variant's enumerated events)
removed and every other key's value unchanged. -/
theorem C4_constructor_props_stripped (v : Variant) (props : Bag)
    (k : String) :
    (∃ s w t, mountAdapter v true props = .ok (s, w, t) ∧
      t.head? = some (.construct 0 (stripCallbacks v props))) ∧
    lookupBag (stripCallbacks v props) k =
      (if k ∈ v.eventNames.map getEventFnName then none
       else lookupBag props k) := by
  constructor
  · exact ⟨_, _, _, rfl, rfl⟩
  · exact lookup_foldl_deleteKey v.eventNames props k

/-- Claim C6: mounting without an available host DOM node raises the
adapter's one error immediately; with the host node present the mount of
any props bag succeeds — there is no other failure condition. -/
theorem C6_missing_host_node_fails_fast (v : Variant) (props : Bag) :
    mountAdapter v false props = .error .missingHostNode ∧
    (mountAdapter v true props).isOk = true := by
  exact ⟨rfl, rfl⟩

/-- Claim C7: every imperative method of either variant's ref handle is a
silent no-op (`none`, no throw) before the wrapped instance exists, and
delegates to the identically-named method of the wrapped instance once it
does. -/
theorem C7_imperative_methods_null_safe (cid : Nat) (value : String)
    (submit : Option Bool) :
    ((mkExtHandle none).focus () = none ∧
     (mkExtHandle none).blur () = none ∧
     (mkExtHandle none).setQuery value submit = none ∧
     (mkExtHandle none).clearMap () = none ∧
     (mkExtHandle none).clearList () = none ∧
     (mkBaseHandle none).focus () = none ∧
     (mkBaseHandle none).blur () = none ∧
     (mkBaseHandle none).setQuery value submit = none) ∧
    ((mkExtHandle (some cid)).focus () = some (.focus cid) ∧
     (mkExtHandle (some cid)).blur () = some (.blur cid) ∧
     (mkExtHandle (some cid)).clearMap () = some (.clearMap cid) ∧
     (mkExtHandle (some cid)).clearList () = some (.clearList cid) ∧
     (mkBaseHandle (some cid)).focus () = some (.focus cid) ∧
     (mkBaseHandle (some cid)).blur () = some (.blur cid)) := by
  exact ⟨⟨rfl, rfl, rfl, rfl, rfl, rfl, rfl, rfl⟩,
         ⟨rfl, rfl, rfl, rfl, rfl, rfl⟩⟩

/-- Claim C8: `setQuery` called through the ref with the submit argument
omitted delegates with `submit = true` (and an explicit submit argument
is passed through); the surface is exactly `focus`, `blur`, `setQuery`
plus, in the extended variant only, `clearMap` and `clearList` — the
fields of `ExtHandle` and `BaseHandle`. -/
theorem C8_setQuery_default_submit (cid : Nat) (value : String) :
    (mkExtHandle (some cid)).setQuery value none =
      some (.setQuery cid value true) ∧
    (mkBaseHandle (some cid)).setQuery value none =
      some (.setQuery cid value true) ∧
    (∀ b, (mkExtHandle (some cid)).setQuery value (some b) =
      some (.setQuery cid value b)) ∧
    (∀ b, (mkBaseHandle (some cid)).setQuery value (some b) =
      some (.setQuery cid value b)) := by
  exact ⟨rfl, rfl, fun b => rfl, fun b => rfl⟩

theorem filterMap_none_eq_nil {α β : Type} (f : α → Option β)
    (l : List α) (h : ∀ a ∈ l, f a = none) : l.filterMap f = [] := by
  induction l with
  | nil => rfl
  | cons a rest ih =>
    rw [List.filterMap_cons, h a (List.mem_cons_self a rest)]
    exact ih (fun x hx => h x (List.mem_cons_of_mem a hx))

theorem filter_false_eq_nil {α : Type} (p : α → Bool) (l : List α)
    (h : ∀ a ∈ l, p a = false) : l.filter p = [] := by
  induction l with
  | nil => rfl
  | cons a rest ih =>
    rw [List.filter_cons, h a (List.mem_cons_self a rest)]
    exact ih (fun x hx => h x (List.mem_cons_of_mem a hx))

theorem runPropEffects_mem (control : Option Nat) (prev : Option Bag)
    (props : Bag) (names : List String) (c : ICall)
    (hc : c ∈ runPropEffects control prev props names) :
    ∃ cid p val, control = some cid ∧ p ∈ names ∧
      lookupBag props p = some val ∧ c = ICall.set cid p val := by
  simp only [runPropEffects, List.mem_filterMap] at hc
  rcases hc with ⟨p, hp, hf⟩
  by_cases hdep : depsChanged prev props p = true
  · rw [if_pos hdep] at hf
    cases hctrl : control with
    | none => rw [hctrl] at hf; cases hl : lookupBag props p <;>
        rw [hl] at hf <;> cases hf
    | some cid =>
      rw [hctrl] at hf
      cases hl : lookupBag props p with
      | none => rw [hl] at hf; cases hf
      | some val =>
        rw [hl] at hf
        exact ⟨cid, p, val, rfl, hp, hl, (Option.some_inj.mp hf).symm⟩
  · rw [if_neg hdep] at hf; cases hf

theorem runPropEffects_cons (control : Option Nat) (prev : Option Bag)
    (props : Bag) (a : String) (rest : List String) :
    runPropEffects control prev props (a :: rest) =
      (if depsChanged prev props a then
        match control, lookupBag props a with
        | some cid, some val => [ICall.set cid a val]
        | _, _ => []
      else []) ++ runPropEffects control prev props rest := by
  simp only [runPropEffects, List.filterMap_cons]
  by_cases h : depsChanged prev props a = true
  · simp only [h, if_true]
    cases control <;> cases lookupBag props a <;> simp
  · simp only [h, if_false]
    simp [h]

theorem runPropEffects_nil_of_unchanged (cid : Nat) (prev props : Bag)
    (names : List String)
    (hsame : ∀ p ∈ names, lookupBag props p = lookupBag prev p) :
    runPropEffects (some cid) (some prev) props names = [] := by
  apply filterMap_none_eq_nil
  intro p hp
  have hdep : depsChanged (some prev) props p = false := by
    simp only [depsChanged, bne_eq_false_iff_eq]
    exact (hsame p hp).symm
  simp [hdep]

theorem runPropEffects_single (cid : Nat) (prev props : Bag)
    (names : List String) (name : String) (val : Value)
    (hnd : names.Nodup) (hmem : name ∈ names)
    (hchange : lookupBag prev name ≠ lookupBag props name)
    (hval : lookupBag props name = some val)
    (hother : ∀ p ∈ names, p ≠ name →
      lookupBag props p = lookupBag prev p) :
    runPropEffects (some cid) (some prev) props names =
      [ICall.set cid name val] := by
  induction names with
  | nil => cases hmem
  | cons a rest ih =>
    rw [List.nodup_cons] at hnd
    rw [runPropEffects_cons]
    rcases List.mem_cons.mp hmem with heq | hmemR
    · have hdep : depsChanged (some prev) props a = true := by
        simp only [depsChanged, bne_iff_ne, ne_eq]
        rw [← heq]
        exact hchange
      have htail : runPropEffects (some cid) (some prev) props rest = [] := by
        apply runPropEffects_nil_of_unchanged
        intro p hp
        have hpn : p ≠ name := fun h2 => hnd.1 ((h2.trans heq) ▸ hp)
        exact hother p (List.mem_cons_of_mem _ hp) hpn
      rw [htail, hdep, ← heq, hval]
      simp
    · have han : a ≠ name := fun h => hnd.1 (h ▸ hmemR)
      have heq2 := hother a (List.mem_cons_self a rest) han
      have hdep2 : depsChanged (some prev) props a = false := by
        simp only [depsChanged, bne_eq_false_iff_eq]
        exact heq2.symm
      rw [hdep2]
      simp only [Bool.false_eq_true, if_false, List.nil_append]
      exact ih hnd.2 hmemR
        (fun p hp hpn => hother p (List.mem_cons_of_mem a hp) hpn)

theorem setCallsFor_nil_of_not_mem (control : Option Nat)
    (prev : Option Bag) (props : Bag) (names : List String) (name : String)
    (hmem : name ∉ names) :
    setCallsFor name (runPropEffects control prev props names) = [] := by
  apply filter_false_eq_nil
  intro c hc
  rcases runPropEffects_mem control prev props names c hc with
    ⟨cid, p, val, _, hp, _, hcset⟩
  subst hcset
  simp only [beq_eq_false_iff_ne, ne_eq]
  exact fun h => hmem (h ▸ hp)

theorem setCallsFor_runPropEffects_first (cid : Nat) (props : Bag)
    (names : List String) (name : String) (val : Value)
    (hnd : names.Nodup) (hmem : name ∈ names)
    (hval : lookupBag props name = some val) :
    setCallsFor name (runPropEffects (some cid) none props names) =
      [ICall.set cid name val] := by
  induction names with
  | nil => cases hmem
  | cons a rest ih =>
    rw [List.nodup_cons] at hnd
    rw [runPropEffects_cons]
    have hdep : depsChanged none props a = true := rfl
    rw [hdep]
    simp only [if_true]
    rcases List.mem_cons.mp hmem with heq | hmemR
    · have htail :
          setCallsFor name (runPropEffects (some cid) none props rest) =
            [] := by
        apply setCallsFor_nil_of_not_mem
        exact fun h => hnd.1 (heq ▸ h)
      rw [← heq, hval]
      simp only [setCallsFor, List.filter_append] at htail ⊢
      rw [htail]
      simp [setCallsFor, List.filter_cons]
    · have han : a ≠ name := fun h => hnd.1 (h ▸ hmemR)
      have ihr := ih hnd.2 hmemR
      simp only [setCallsFor, List.filter_append] at ihr ⊢
      rw [ihr]
      cases hl : lookupBag props a with
      | none => simp
      | some va =>
        simp only [List.filter_cons, List.filter_nil]
        simp [beq_eq_false_iff_ne.mpr han]

theorem runOneEventEffect_calls_mem (style : EventEffectStyle)
    (control : Option Nat) (name : String) (handler : Option Value)
    (w : World) (c : ICall)
    (hc : c ∈ (runOneEventEffect style control name handler w).2.2) :
    ∃ id h, c = ICall.on id name h := by
  cases style <;> cases handler <;> cases control <;>
      simp only [runOneEventEffect, List.mem_singleton,
        List.not_mem_nil] at hc <;>
    exact ⟨_, _, hc⟩

theorem runOneEventEffect_world (style : EventEffectStyle)
    (control : Option Nat) (name : String) (handler : Option Value)
    (w : World) :
    (runOneEventEffect style control name handler w).2.1.alive = w.alive ∧
    (runOneEventEffect style control name handler w).2.1.nextInstId =
      w.nextInstId := by
  cases style <;> cases handler <;> cases control <;>
    simp [runOneEventEffect, World.subscribe]

theorem runCleanup_world (name : String) (stored : Option Nat) (w : World) :
    (runCleanup name stored w).1.alive = w.alive ∧
    (runCleanup name stored w).1.nextInstId = w.nextInstId := by
  cases stored <;> simp [runCleanup, World.unsubscribe]

theorem runCleanup_calls_mem (name : String) (stored : Option Nat)
    (w : World) (c : ICall) (hc : c ∈ (runCleanup name stored w).2) :
    ∃ sid, c = ICall.unsub sid name := by
  cases stored with
  | none => simp [runCleanup] at hc
  | some sid =>
    simp only [runCleanup, List.mem_singleton] at hc
    exact ⟨sid, hc⟩

theorem runEventEffects_calls_mem (style : EventEffectStyle)
    (control : Option Nat) (prev : Option Bag) (props : Bag) :
    ∀ (names : List String) (cls : List (Option Nat)) (w : World)
      (c : ICall),
      c ∈ (runEventEffects style control prev props names cls w).2.2 →
      (∃ id nm h, c = ICall.on id nm h ∧ nm ∈ names) ∨
      (∃ sid nm, c = ICall.unsub sid nm ∧ nm ∈ names) := by
  intro names
  induction names with
  | nil => intro cls w c hc; simp [runEventEffects] at hc
  | cons name rest ih =>
    intro cls w c hc
    by_cases hdep : depsChanged prev props (getEventFnName name) = true
    · simp only [runEventEffects, hdep, if_true, List.mem_append] at hc
      rcases hc with (hc | hc) | hc
      · rcases runCleanup_calls_mem _ _ _ _ hc with ⟨sid, rfl⟩
        exact Or.inr ⟨sid, name, rfl, List.mem_cons_self _ _⟩
      · rcases runOneEventEffect_calls_mem _ _ _ _ _ _ hc with ⟨id, h, rfl⟩
        exact Or.inl ⟨id, name, h, rfl, List.mem_cons_self _ _⟩
      · rcases ih cls.tail _ c hc with ⟨id, nm, h, rfl, hnm⟩ | ⟨sid, nm, rfl, hnm⟩
        · exact Or.inl ⟨id, nm, h, rfl, List.mem_cons_of_mem _ hnm⟩
        · exact Or.inr ⟨sid, nm, rfl, List.mem_cons_of_mem _ hnm⟩
    · rw [Bool.not_eq_true] at hdep
      simp only [runEventEffects, hdep, Bool.false_eq_true, if_false] at hc
      rcases ih cls.tail _ c hc with ⟨id, nm, h, rfl, hnm⟩ | ⟨sid, nm, rfl, hnm⟩
      · exact Or.inl ⟨id, nm, h, rfl, List.mem_cons_of_mem _ hnm⟩
      · exact Or.inr ⟨sid, nm, rfl, List.mem_cons_of_mem _ hnm⟩

theorem runEventEffects_world (style : EventEffectStyle)
    (control : Option Nat) (prev : Option Bag) (props : Bag) :
    ∀ (names : List String) (cls : List (Option Nat)) (w : World),
      (runEventEffects style control prev props names cls w).2.1.alive =
        w.alive ∧
      (runEventEffects style control prev props names cls w).2.1.nextInstId =
        w.nextInstId := by
  intro names
  induction names with
  | nil => intro cls w; simp [runEventEffects]
  | cons name rest ih =>
    intro cls w
    by_cases hdep : depsChanged prev props (getEventFnName name) = true
    · simp only [runEventEffects, hdep, if_true]
      have h1 := runCleanup_world name (cls.headD none) w
      have h2 := runOneEventEffect_world style control name
        (lookupBag props (getEventFnName name)) (runCleanup name (cls.headD none) w).1
      have h3 := ih cls.tail (runOneEventEffect style control name
        (lookupBag props (getEventFnName name))
        (runCleanup name (cls.headD none) w).1).2.1
      exact ⟨h3.1.trans (h2.1.trans h1.1), h3.2.trans (h2.2.trans h1.2)⟩
    · rw [Bool.not_eq_true] at hdep
      simp only [runEventEffects, hdep, Bool.false_eq_true, if_false]
      exact ih cls.tail w

/-- A `$set` call is never an `$on`/unsubscribe call: the calls emitted by
the per-event effects contribute nothing to `setCallList`/`setCallsFor`. -/
theorem setCallList_runEventEffects (style : EventEffectStyle)
    (control : Option Nat) (prev : Option Bag) (props : Bag)
    (names : List String) (cls : List (Option Nat)) (w : World) :
    setCallList
      (runEventEffects style control prev props names cls w).2.2 = [] := by
  apply filter_false_eq_nil
  intro c hc
  rcases runEventEffects_calls_mem style control prev props names cls w c hc
    with ⟨id, nm, h, rfl, _⟩ | ⟨sid, nm, rfl, _⟩ <;> rfl

theorem setCallsFor_runEventEffects (style : EventEffectStyle)
    (control : Option Nat) (prev : Option Bag) (props : Bag)
    (names : List String) (cls : List (Option Nat)) (w : World)
    (name : String) :
    setCallsFor name
      (runEventEffects style control prev props names cls w).2.2 = [] := by
  apply filter_false_eq_nil
  intro c hc
  rcases runEventEffects_calls_mem style control prev props names cls w c hc
    with ⟨id, nm, h, rfl, _⟩ | ⟨sid, nm, rfl, _⟩ <;> rfl

/-- Unfolding of a re-render commit (`prevProps = some prev`): the mount
effect does not re-run; the per-option and per-event effects do. -/
theorem commitRender_re (v : Variant) (d : Bool) (s : AdapterState)
    (w : World) (prev props : Bag) (hprev : s.prevProps = some prev) :
    commitRender v d s w props =
      .ok (⟨s.ctrl, some props,
             (runEventEffects v.style s.ctrl (some prev) props v.eventNames
               s.eventCleanups w).1⟩,
           (runEventEffects v.style s.ctrl (some prev) props v.eventNames
             s.eventCleanups w).2.1,
           runPropEffects s.ctrl (some prev) props v.propertyNames ++
             (runEventEffects v.style s.ctrl (some prev) props v.eventNames
               s.eventCleanups w).2.2) := by
  rcases hev : runEventEffects v.style s.ctrl (some prev) props v.eventNames
    s.eventCleanups w with ⟨cls, w1, evCalls⟩
  simp [commitRender, hprev, hev]

/-- Unfolding of the mount commit with the host node present. -/
theorem commitRender_mount (v : Variant) (s : AdapterState) (w : World)
    (props : Bag) (hprev : s.prevProps = none) :
    commitRender v true s w props =
      .ok (⟨some w.nextInstId, some props,
             (runEventEffects v.style (some w.nextInstId) none props
               v.eventNames s.eventCleanups w.construct.2).1⟩,
           (runEventEffects v.style (some w.nextInstId) none props
             v.eventNames s.eventCleanups w.construct.2).2.1,
           .construct w.nextInstId (stripCallbacks v props) ::
             (runPropEffects (some w.nextInstId) none props v.propertyNames ++
               (runEventEffects v.style (some w.nextInstId) none props
                 v.eventNames s.eventCleanups w.construct.2).2.2)) := by
  simp only [commitRender, hprev]
  rfl

/-- Claim C1: from a mounted adapter, when between two render cycles only
one enumerated forwardable option changes (by reference inequality) and
its new value is defined, the commit makes exactly one `$set` call, with
the one-key payload `{name: newValue}` — and no `$set` call for any other
option. -/
theorem C1_single_option_update (v : Variant) (s : AdapterState) (w : World)
    (props prev : Bag) (cid : Nat) (name : String) (val : Value)
    (hctrl : s.ctrl = some cid) (hprev : s.prevProps = some prev)
    (hnd : v.propertyNames.Nodup) (hmem : name ∈ v.propertyNames)
    (hchange : lookupBag prev name ≠ lookupBag props name)
    (hval : lookupBag props name = some val)
    (hother : ∀ p ∈ v.propertyNames, p ≠ name →
      lookupBag props p = lookupBag prev p) :
    ∃ s2 w2 calls,
      commitRender v true s w props = .ok (s2, w2, calls) ∧
      setCallList calls = [ICall.set cid name val] := by
  refine ⟨_, _, _, commitRender_re v true s w prev props hprev, ?_⟩
  rw [hctrl]
  simp only [setCallList, List.filter_append]
  rw [← setCallList, ← setCallList, setCallList_runEventEffects,
    runPropEffects_single cid prev props v.propertyNames name val hnd hmem
      hchange hval hother]
  rfl

/-- Claim C1 witness: a mounted extended-variant adapter whose `apiKey`
changes from value 1 to value 2 while all other options stay unchanged
emits exactly the one call `$set({apiKey: 2})`. -/
theorem C1_single_option_update_witness :
    ∃ s2 w2 calls,
      commitRender reactExt true
        ⟨some 0, some [("apiKey", 1)], List.replicate 8 none⟩
        ⟨1, [0], [], 0⟩ [("apiKey", 2)] = .ok (s2, w2, calls) ∧
      setCallList calls = [ICall.set 0 "apiKey" 2] := by
  exact C1_single_option_update reactExt
    ⟨some 0, some [("apiKey", 1)], List.replicate 8 none⟩
    ⟨1, [0], [], 0⟩ [("apiKey", 2)] [("apiKey", 1)] 0 "apiKey" 2
    rfl rfl (by decide) (by decide) (by decide) (by decide) (by decide)

/-- Claim C5: an option whose value is `undefined` (absent) in the
current render's props is never forwarded by the commit, whatever its
previous value was — there is no `$set` call carrying that option. -/
theorem C5_undefined_never_forwarded (v : Variant) (d : Bool)
    (s : AdapterState) (w : World) (props : Bag) (name : String)
    (hval : lookupBag props name = none) :
    ∀ s2 w2 calls, commitRender v d s w props = .ok (s2, w2, calls) →
      setCallsFor name calls = [] := by
  intro s2 w2 calls hcommit
  have hprops : ∀ (control : Option Nat) (prev : Option Bag),
      setCallsFor name (runPropEffects control prev props
        v.propertyNames) = [] := by
    intro control prev
    apply filter_false_eq_nil
    intro c hc
    rcases runPropEffects_mem control prev props v.propertyNames c hc with
      ⟨cid, p, pv, _, _, hl, hcset⟩
    subst hcset
    simp only [beq_eq_false_iff_ne, ne_eq]
    intro hpn
    rw [hpn, hval] at hl
    cases hl
  cases hp : s.prevProps with
  | some prev =>
    rw [commitRender_re v d s w prev props hp] at hcommit
    rcases (Except.ok.inj hcommit) with h
    have hcalls : calls =
        runPropEffects s.ctrl (some prev) props v.propertyNames ++
          (runEventEffects v.style s.ctrl (some prev) props v.eventNames
            s.eventCleanups w).2.2 := by
      have := congrArg (fun r => r.2.2) h
      exact this.symm
    rw [hcalls, setCallsFor, List.filter_append, ← setCallsFor,
      ← setCallsFor, hprops, setCallsFor_runEventEffects]
    rfl
  | none =>
    cases d with
    | false =>
      rw [show commitRender v false s w props = .error .missingHostNode by
        simp [commitRender, hp]] at hcommit
      cases hcommit
    | true =>
      rw [commitRender_mount v s w props hp] at hcommit
      rcases (Except.ok.inj hcommit) with h
      have hcalls : calls =
          .construct w.nextInstId (stripCallbacks v props) ::
            (runPropEffects (some w.nextInstId) none props v.propertyNames ++
              (runEventEffects v.style (some w.nextInstId) none props
                v.eventNames s.eventCleanups w.construct.2).2.2) := by
        have := congrArg (fun r => r.2.2) h
        exact this.symm
      rw [hcalls]
      simp only [setCallsFor, List.filter_cons, List.filter_append]
      rw [← setCallsFor, ← setCallsFor, hprops, setCallsFor_runEventEffects]
      rfl

/-- Claim C5 witness: with `apiKey` previously 1 and now absent (while
`language` becomes newly defined), the commit emits no `$set` for
`apiKey`. -/
theorem C5_undefined_never_forwarded_witness :
    lookupBag [("language", 9)] "apiKey" = none ∧
    setCallsFor "apiKey" [ICall.set 0 "language" 9] = [] := by
  refine ⟨rfl, ?_⟩
  exact C5_undefined_never_forwarded reactExt true
    ⟨some 0, some [("apiKey", 1)], List.replicate 8 none⟩
    ⟨1, [0], [], 0⟩ [("language", 9)] "apiKey" rfl
    ⟨some 0, some [("language", 9)], List.replicate 8 none⟩
    ⟨1, [0], [], 0⟩ [ICall.set 0 "language" 9] rfl

/-- Claim C10: on the initial mount commit, every enumerated option with a
defined value is delivered to the wrapped instance twice: it is contained
in the constructor's property bag (callback-shaped keys removed), and the
per-option effect — which runs on the first render, not only on change —
additionally issues the one update call `$set({name: value})`. -/
theorem C10_mount_double_delivery (v : Variant) (props : Bag)
    (name : String) (val : Value) (hnd : v.propertyNames.Nodup)
    (hmem : name ∈ v.propertyNames) (hval : lookupBag props name = some val)
    (hncb : name ∉ v.eventNames.map getEventFnName) :
    ∃ s w calls, mountAdapter v true props = .ok (s, w, calls) ∧
      calls.head? = some (.construct 0 (stripCallbacks v props)) ∧
      lookupBag (stripCallbacks v props) name = some val ∧
      setCallsFor name calls = [ICall.set 0 name val] := by
  refine ⟨_, _, _,
    commitRender_mount v (initState v) World.empty props rfl, rfl, ?_, ?_⟩
  · rw [stripCallbacks, lookup_foldl_deleteKey, if_neg hncb]
    exact hval
  · simp only [setCallsFor, List.filter_cons, List.filter_append]
    rw [← setCallsFor, ← setCallsFor, setCallsFor_runEventEffects,
      setCallsFor_runPropEffects_first World.empty.nextInstId props
        v.propertyNames name val hnd hmem hval]
    rfl

/-- Claim C10 witness: mounting the extended variant with
`{apiKey: 1, onSelect: 5}` constructs the instance with `{apiKey: 1}` and
additionally emits the one update call `$set({apiKey: 1})`. -/
theorem C10_mount_double_delivery_witness :
    ∃ s w calls,
      mountAdapter reactExt true [("apiKey", 1), ("onSelect", 5)] =
        .ok (s, w, calls) ∧
      calls.head? = some (.construct 0
        (stripCallbacks reactExt [("apiKey", 1), ("onSelect", 5)])) ∧
      lookupBag (stripCallbacks reactExt [("apiKey", 1), ("onSelect", 5)])
        "apiKey" = some 1 ∧
      setCallsFor "apiKey" calls = [ICall.set 0 "apiKey" 1] := by
  exact C10_mount_double_delivery reactExt [("apiKey", 1), ("onSelect", 5)]
    "apiKey" 1 (by decide) (by decide) (by decide) (by decide)

theorem countP_eq_zero_of_all_false {α : Type} (p : α → Bool) (l : List α)
    (h : ∀ a ∈ l, p a = false) : l.countP p = 0 := by
  induction l with
  | nil => rfl
  | cons a rest ih =>
    rw [List.countP_cons, h a (List.mem_cons_self a rest)]
    simp only [Bool.false_eq_true, if_false, Nat.add_zero]
    exact ih (fun x hx => h x (List.mem_cons_of_mem a hx))

theorem commit_calls_no_lifecycle (v : Variant) (control : Option Nat)
    (prev : Option Bag) (props : Bag) (cls : List (Option Nat)) (w : World)
    (c : ICall)
    (hc : c ∈ runPropEffects control prev props v.propertyNames ++
      (runEventEffects v.style control prev props v.eventNames cls w).2.2) :
    isConstructCall c = false ∧ isDestroyCall c = false := by
  rcases List.mem_append.mp hc with h | h
  · rcases runPropEffects_mem control prev props v.propertyNames c h with
      ⟨cid, p, val, _, _, _, rfl⟩
    exact ⟨rfl, rfl⟩
  · rcases runEventEffects_calls_mem v.style control prev props v.eventNames
      cls w c h with ⟨id, nm, hh, rfl, _⟩ | ⟨sid, nm, rfl, _⟩ <;>
      exact ⟨rfl, rfl⟩

theorem runUpdates_cons_inv (v : Variant) (s : AdapterState) (w : World)
    (props : Bag) (rest : List Bag) (s2 : AdapterState) (w2 : World)
    (t2 : List ICall)
    (h : runUpdates v s w (props :: rest) = .ok (s2, w2, t2)) :
    ∃ s1 w1 t1 t3, commitRender v true s w props = .ok (s1, w1, t1) ∧
      runUpdates v s1 w1 rest = .ok (s2, w2, t3) ∧ t2 = t1 ++ t3 := by
  rcases hc : commitRender v true s w props with e | r
  · simp only [runUpdates, hc] at h
    cases h
  · rcases r with ⟨s1, w1, t1⟩
    simp only [runUpdates, hc] at h
    rcases hr : runUpdates v s1 w1 rest with e | r2
    · rw [hr] at h; cases h
    · rcases r2 with ⟨s3, w3, t3⟩
      rw [hr] at h
      have h2 := Except.ok.inj h
      have hs : s3 = s2 := congrArg (fun r => r.1) h2
      have hw : w3 = w2 := congrArg (fun r => r.2.1) h2
      have ht : t1 ++ t3 = t2 := congrArg (fun r => r.2.2) h2
      exact ⟨s1, w1, t1, t3, rfl, hs ▸ hw ▸ hr, ht.symm⟩

theorem runAdapter_inv (v : Variant) (d : Bool) (props0 : Bag)
    (updates : List Bag) (s : AdapterState) (w : World) (t : List ICall)
    (h : runAdapter v d props0 updates = .ok (s, w, t)) :
    ∃ s1 w1 t1 t2, mountAdapter v d props0 = .ok (s1, w1, t1) ∧
      runUpdates v s1 w1 updates = .ok (s, w, t2) ∧ t = t1 ++ t2 := by
  rcases hm : mountAdapter v d props0 with e | r
  · simp only [runAdapter, hm] at h
    cases h
  · rcases r with ⟨s1, w1, t1⟩
    simp only [runAdapter, hm] at h
    rcases hr : runUpdates v s1 w1 updates with e | r2
    · rw [hr] at h; cases h
    · rcases r2 with ⟨s3, w3, t3⟩
      rw [hr] at h
      have h2 := Except.ok.inj h
      have hs : s3 = s := congrArg (fun r => r.1) h2
      have hw : w3 = w := congrArg (fun r => r.2.1) h2
      have ht : t1 ++ t3 = t := congrArg (fun r => r.2.2) h2
      exact ⟨s1, w1, t1, t3, rfl, hs ▸ hw ▸ hr, ht.symm⟩

theorem runUpdates_lifecycle (v : Variant) :
    ∀ (updates : List Bag) (s : AdapterState) (w : World) (prev : Bag),
      s.prevProps = some prev →
      ∀ s2 w2 t2, runUpdates v s w updates = .ok (s2, w2, t2) →
        s2.ctrl = s.ctrl ∧ (∃ p2, s2.prevProps = some p2) ∧
        w2.alive = w.alive ∧ w2.nextInstId = w.nextInstId ∧
        t2.countP isConstructCall = 0 ∧ t2.countP isDestroyCall = 0 := by
  intro updates
  induction updates with
  | nil =>
    intro s w prev hprev s2 w2 t2 h
    have h2 := Except.ok.inj h
    have hs : s = s2 := congrArg (fun r => r.1) h2
    have hw : w = w2 := congrArg (fun r => r.2.1) h2
    have ht : ([] : List ICall) = t2 := congrArg (fun r => r.2.2) h2
    subst hs; subst hw; subst ht
    exact ⟨rfl, ⟨prev, hprev⟩, rfl, rfl, rfl, rfl⟩
  | cons props rest ih =>
    intro s w prev hprev s2 w2 t2 h
    rcases runUpdates_cons_inv v s w props rest s2 w2 t2 h with
      ⟨s1, w1, t1, t3, hc, hr, rfl⟩
    rw [commitRender_re v true s w prev props hprev] at hc
    have h2 := Except.ok.inj hc
    have hs1 : (⟨s.ctrl, some props,
        (runEventEffects v.style s.ctrl (some prev) props v.eventNames
          s.eventCleanups w).1⟩ : AdapterState) = s1 :=
      congrArg (fun r => r.1) h2
    have hw1 : (runEventEffects v.style s.ctrl (some prev) props
        v.eventNames s.eventCleanups w).2.1 = w1 :=
      congrArg (fun r => r.2.1) h2
    have ht1 : runPropEffects s.ctrl (some prev) props v.propertyNames ++
        (runEventEffects v.style s.ctrl (some prev) props v.eventNames
          s.eventCleanups w).2.2 = t1 :=
      congrArg (fun r => r.2.2) h2
    subst hs1; subst hw1; subst ht1
    rcases ih _ _ props rfl s2 w2 t3 hr with
      ⟨hctrl3, hprev3, halive3, hinst3, hcc3, hdc3⟩
    have hworld := runEventEffects_world v.style s.ctrl (some prev) props
      v.eventNames s.eventCleanups w
    refine ⟨hctrl3, hprev3, ?_, ?_, ?_, ?_⟩
    · rw [halive3, hworld.1]
    · rw [hinst3, hworld.2]
    · rw [List.countP_append, hcc3]
      rw [countP_eq_zero_of_all_false _ _
        (fun c hc2 => (commit_calls_no_lifecycle v s.ctrl (some prev) props
          s.eventCleanups w c hc2).1)]
    · rw [List.countP_append, hdc3]
      rw [countP_eq_zero_of_all_false _ _
        (fun c hc2 => (commit_calls_no_lifecycle v s.ctrl (some prev) props
          s.eventCleanups w c hc2).2)]

theorem unmount_foldl_spec (pairs : List (String × Option Nat)) :
    ∀ acc : World × List ICall,
      (pairs.foldl unmountStep acc).1.alive = acc.1.alive ∧
      (pairs.foldl unmountStep acc).2.countP isDestroyCall =
        acc.2.countP isDestroyCall := by
  induction pairs with
  | nil => intro acc; exact ⟨rfl, rfl⟩
  | cons p rest ih =>
    intro acc
    rw [List.foldl_cons]
    rcases hstep : unmountStep acc p with ⟨w1, calls1⟩
    have hs := ih (w1, calls1)
    have halive : w1.alive = acc.1.alive := by
      cases hp : p.2 with
      | none => simp only [unmountStep, hp] at hstep
                rw [show w1 = acc.1 from congrArg Prod.fst hstep.symm]
      | some sid =>
        simp only [unmountStep, hp] at hstep
        have : w1 = acc.1.unsubscribe sid :=
          congrArg Prod.fst hstep.symm
        rw [this]
        rfl
    have hcount : calls1.countP isDestroyCall =
        acc.2.countP isDestroyCall := by
      cases hp : p.2 with
      | none => simp only [unmountStep, hp] at hstep
                rw [show calls1 = acc.2 from congrArg Prod.snd hstep.symm]
      | some sid =>
        simp only [unmountStep, hp] at hstep
        have : calls1 = acc.2 ++ [ICall.unsub sid p.1] :=
          congrArg Prod.snd hstep.symm
        rw [this, List.countP_append]
        rfl
    exact ⟨hs.1.trans halive, hs.2.trans hcount⟩

/-- Claim C3: over any mounted lifecycle, the wrapped instance is
constructed exactly once (at the initial mount) and never recreated or
destroyed by prop updates; at most one instance is alive at any commit
boundary; unmounting empties the set of live instances and the whole
trace then contains exactly one `$destroy`. -/
theorem C3_instance_lifecycle (v : Variant) (props0 : Bag)
    (updates : List Bag) :
    ∀ s w t, runAdapter v true props0 updates = .ok (s, w, t) →
      t.countP isConstructCall = 1 ∧
      t.countP isDestroyCall = 0 ∧
      s.ctrl = some 0 ∧
      w.alive = [0] ∧
      (unmountAdapter v s w).1.alive = [] ∧
      (t ++ (unmountAdapter v s w).2).countP isDestroyCall = 1 := by
  intro s w t h
  rcases runAdapter_inv v true props0 updates s w t h with
    ⟨s1, w1, t1, t2, hm, hr, rfl⟩
  rw [show mountAdapter v true props0 =
      commitRender v true (initState v) World.empty props0 from rfl,
    commitRender_mount v (initState v) World.empty props0 rfl] at hm
  have h2 := Except.ok.inj hm
  have hs1 : (⟨some World.empty.nextInstId, some props0,
      (runEventEffects v.style (some World.empty.nextInstId) none props0
        v.eventNames (initState v).eventCleanups
        World.empty.construct.2).1⟩ : AdapterState) = s1 :=
    congrArg (fun r => r.1) h2
  have hw1 : (runEventEffects v.style (some World.empty.nextInstId) none
      props0 v.eventNames (initState v).eventCleanups
      World.empty.construct.2).2.1 = w1 :=
    congrArg (fun r => r.2.1) h2
  have ht1 : ICall.construct World.empty.nextInstId
      (stripCallbacks v props0) ::
        (runPropEffects (some World.empty.nextInstId) none props0
          v.propertyNames ++
          (runEventEffects v.style (some World.empty.nextInstId) none props0
            v.eventNames (initState v).eventCleanups
            World.empty.construct.2).2.2) = t1 :=
    congrArg (fun r => r.2.2) h2
  subst hs1; subst hw1; subst ht1
  rcases runUpdates_lifecycle v updates _ _ props0 rfl s w t2 hr with
    ⟨hctrl3, _, halive3, _, hcc3, hdc3⟩
  have hworld := runEventEffects_world v.style
    (some World.empty.nextInstId) none props0 v.eventNames
    (initState v).eventCleanups World.empty.construct.2
  have hsctrl : s.ctrl = some 0 := by
    rw [hctrl3]
    exact rfl
  have hwalive : w.alive = [0] := by
    rw [halive3, hworld.1]
    rfl
  have hcommitzero :=
    fun c hc => commit_calls_no_lifecycle v (some World.empty.nextInstId)
      none props0 (initState v).eventCleanups World.empty.construct.2 c hc
  have hcc1 : List.countP isConstructCall
      (ICall.construct World.empty.nextInstId (stripCallbacks v props0) ::
        (runPropEffects (some World.empty.nextInstId) none props0
          v.propertyNames ++
          (runEventEffects v.style (some World.empty.nextInstId) none props0
            v.eventNames (initState v).eventCleanups
            World.empty.construct.2).2.2)) = 1 := by
    rw [List.countP_cons,
      countP_eq_zero_of_all_false _ _ (fun c hc => (hcommitzero c hc).1)]
    rfl
  have hdc1 : List.countP isDestroyCall
      (ICall.construct World.empty.nextInstId (stripCallbacks v props0) ::
        (runPropEffects (some World.empty.nextInstId) none props0
          v.propertyNames ++
          (runEventEffects v.style (some World.empty.nextInstId) none props0
            v.eventNames (initState v).eventCleanups
            World.empty.construct.2).2.2)) = 0 := by
    rw [List.countP_cons,
      countP_eq_zero_of_all_false _ _ (fun c hc => (hcommitzero c hc).2)]
    rfl
  have hunm := unmount_foldl_spec (v.eventNames.zip s.eventCleanups)
  refine ⟨?_, ?_, hsctrl, hwalive, ?_, ?_⟩
  · rw [List.countP_append, hcc1, hcc3]
  · rw [List.countP_append, hdc1, hdc3]
  · simp only [unmountAdapter, hsctrl]
    rw [(hunm _).1]
    simp only [World.destroy, hwalive]
    rfl
  · rw [List.countP_append, List.countP_append, hdc1, hdc3]
    simp only [unmountAdapter, hsctrl]
    rw [(hunm _).2]
    rfl

/-- Claim C3 witness: a concrete lifecycle — mount with `{apiKey: 1}`, no
updates — constructs once, destroys nothing until the unmount, which
destroys exactly once and leaves no live instance. -/
theorem C3_instance_lifecycle_witness :
    List.countP isConstructCall
      [ICall.construct 0 [("apiKey", 1)], ICall.set 0 "apiKey" 1] = 1 ∧
    List.countP isDestroyCall
      [ICall.construct 0 [("apiKey", 1)], ICall.set 0 "apiKey" 1] = 0 ∧
    AdapterState.ctrl ⟨some 0, some [("apiKey", 1)],
      List.replicate 8 none⟩ = some 0 ∧
    World.alive ⟨1, [0], [], 0⟩ = [0] ∧
    (unmountAdapter reactExt
      ⟨some 0, some [("apiKey", 1)], List.replicate 8 none⟩
      ⟨1, [0], [], 0⟩).1.alive = [] ∧
    ([ICall.construct 0 [("apiKey", 1)], ICall.set 0 "apiKey" 1] ++
      (unmountAdapter reactExt
        ⟨some 0, some [("apiKey", 1)], List.replicate 8 none⟩
        ⟨1, [0], [], 0⟩).2).countP isDestroyCall = 1 := by
  exact C3_instance_lifecycle reactExt [("apiKey", 1)] []
    ⟨some 0, some [("apiKey", 1)], List.replicate 8 none⟩
    ⟨1, [0], [], 0⟩
    [ICall.construct 0 [("apiKey", 1)], ICall.set 0 "apiKey" 1] rfl

/-- Well-formedness of the subscription registry: every subscription id is
below the id counter, and ids are pairwise distinct. -/
def SubIdsOk (w : World) : Prop :=
  (∀ sub ∈ w.subs, sub.subId < w.nextSubId) ∧
  (w.subs.map Sub.subId).Nodup

/-- Per-event correspondence for the extended variant: an event whose
callback is present in the committed props has exactly one live
subscription — the one whose unsubscriber is stored as that effect's
cleanup — and an event without a callback has none. -/
def EventsOk (cid : Nat) (committed : Bag) (w : World) :
    List String → List (Option Nat) → Prop :=
  List.Forall₂ (fun name cl =>
    match lookupBag committed (getEventFnName name), cl with
    | some cb, some sid => subsFor w cid name = [⟨sid, cid, name, cb⟩]
    | none, none => subsFor w cid name = []
    | _, _ => False)

/-- The subscription calls one commit is expected to emit for one event
of the extended variant, given the stored cleanup: nothing when the
handler reference is unchanged; otherwise the teardown of the old
subscription (if one was stored) followed by the installation of the new
one (if a handler is now present). -/
def expectedEventCalls (cid : Nat) (prev : Option Bag) (props : Bag)
    (name : String) (stored : Option Nat) : List ICall :=
  if depsChanged prev props (getEventFnName name) then
    (match stored with
     | some sid => [ICall.unsub sid name]
     | none => []) ++
    (match lookupBag props (getEventFnName name) with
     | some cb => [ICall.on cid name (some cb)]
     | none => [])
  else []

theorem filter_comm_bool {α : Type} (p q : α → Bool) (l : List α) :
    (l.filter p).filter q = (l.filter q).filter p := by
  induction l with
  | nil => rfl
  | cons a rest ih =>
    rw [List.filter_cons, List.filter_cons]
    cases hp : p a <;> cases hq : q a <;>
      simp [List.filter_cons, hp, hq, ih]

theorem filter_all_true {α : Type} (p : α → Bool) (l : List α)
    (h : ∀ a ∈ l, p a = true) : l.filter p = l := by
  induction l with
  | nil => rfl
  | cons a rest ih =>
    rw [List.filter_cons, h a (List.mem_cons_self a rest)]
    simp only [if_true]
    rw [ih (fun x hx => h x (List.mem_cons_of_mem a hx))]

theorem subsFor_subscribe_same (w : World) (cid : Nat) (name : String)
    (h : Value) :
    subsFor (w.subscribe cid name h).2 cid name =
      subsFor w cid name ++ [⟨w.nextSubId, cid, name, h⟩] := by
  simp [subsFor, World.subscribe, List.filter_append]

theorem subsFor_subscribe_other (w : World) (cid : Nat) (name nm : String)
    (h : Value) (hne : nm ≠ name) :
    subsFor (w.subscribe cid name h).2 cid nm = subsFor w cid nm := by
  simp only [subsFor, World.subscribe, List.filter_append]
  rw [show List.filter
      (fun sub => sub.instId == cid && sub.eventName == nm)
      [(⟨w.nextSubId, cid, name, h⟩ : Sub)] = [] by
    simp [Ne.symm hne]]
  rw [List.append_nil]

theorem subsFor_unsubscribe (w : World) (sid : Nat) (cid : Nat)
    (nm : String) :
    subsFor (w.unsubscribe sid) cid nm =
      (subsFor w cid nm).filter (fun sub => sub.subId != sid) := by
  simp only [subsFor, World.unsubscribe]
  exact filter_comm_bool _ _ w.subs

theorem subsFor_unsubscribe_of_none (w : World) (sid : Nat) (cid : Nat)
    (nm : String) (h : ∀ sub ∈ subsFor w cid nm, sub.subId ≠ sid) :
    subsFor (w.unsubscribe sid) cid nm = subsFor w cid nm := by
  rw [subsFor_unsubscribe]
  exact filter_all_true _ _
    (fun sub hs => by simpa using h sub hs)

theorem subsFor_mem (w : World) (cid : Nat) (nm : String) (sub : Sub)
    (h : sub ∈ subsFor w cid nm) :
    sub ∈ w.subs ∧ sub.instId = cid ∧ sub.eventName = nm := by
  rcases List.mem_filter.mp h with ⟨hm, hp⟩
  simp only [Bool.and_eq_true, beq_iff_eq] at hp
  exact ⟨hm, hp.1, hp.2⟩

/-- Under id uniqueness, the subscription stored for one event is not
registered under any other event name: unsubscribing it leaves the other
events' subscriptions untouched. -/
theorem subsFor_unsubscribe_singleton_other (w : World) (cid : Nat)
    (name nm : String) (sid : Nat) (cb : Value) (hids : SubIdsOk w)
    (hone : subsFor w cid name = [⟨sid, cid, name, cb⟩]) (hne : nm ≠ name) :
    subsFor (w.unsubscribe sid) cid nm = subsFor w cid nm := by
  apply subsFor_unsubscribe_of_none
  intro sub hs hsid
  have hx : (⟨sid, cid, name, cb⟩ : Sub) ∈ subsFor w cid name := by
    rw [hone]; exact List.mem_singleton_self _
  have hsubm := subsFor_mem w cid nm sub hs
  have hxm := subsFor_mem w cid name _ hx
  have heq : sub = ⟨sid, cid, name, cb⟩ :=
    List.inj_on_of_nodup_map hids.2 hsubm.1 hxm.1 (by rw [hsid])
  have : nm = name := by rw [← hsubm.2.2, heq]
  exact hne this

theorem subsFor_unsubscribe_singleton_same (w : World) (cid : Nat)
    (name : String) (sid : Nat) (cb : Value)
    (hone : subsFor w cid name = [⟨sid, cid, name, cb⟩]) :
    subsFor (w.unsubscribe sid) cid name = [] := by
  rw [subsFor_unsubscribe, hone]
  simp

theorem SubIdsOk.unsubscribe (w : World) (sid : Nat) (h : SubIdsOk w) :
    SubIdsOk (w.unsubscribe sid) := by
  constructor
  · intro sub hs
    exact h.1 sub (List.mem_of_mem_filter hs)
  · exact List.Nodup.sublist
      (List.Sublist.map Sub.subId (List.filter_sublist w.subs)) h.2

theorem SubIdsOk.subscribe (w : World) (cid : Nat) (name : String)
    (hv : Value) (h : SubIdsOk w) :
    SubIdsOk (w.subscribe cid name hv).2 := by
  constructor
  · intro sub hs
    simp only [World.subscribe, List.mem_append, List.mem_singleton] at hs
    rcases hs with hs | rfl
    · exact Nat.lt_trans (h.1 sub hs) (Nat.lt_succ_self _)
    · exact Nat.lt_succ_self _
  · simp only [World.subscribe, List.map_append, List.map_cons,
      List.map_nil]
    rw [List.nodup_append]
    refine ⟨h.2, List.nodup_singleton _, ?_⟩
    intro x hx hx2
    rcases List.mem_map.mp hx with ⟨sub, hs, rfl⟩
    have hx3 := List.mem_singleton.mp hx2
    exact Nat.lt_irrefl _ (hx3 ▸ h.1 sub hs)

theorem subscribe_nextInst (w : World) (cid : Nat) (name : String)
    (hv : Value) :
    (w.subscribe cid name hv).2.nextInstId = w.nextInstId := rfl

theorem forall₂_imp_mem {α β : Type} {R S : α → β → Prop}
    {l1 : List α} {l2 : List β} (h : List.Forall₂ R l1 l2)
    (himp : ∀ a ∈ l1, ∀ b, R a b → S a b) : List.Forall₂ S l1 l2 := by
  induction h with
  | nil => exact List.Forall₂.nil
  | cons hr hrest ih =>
    exact List.Forall₂.cons
      (himp _ (List.mem_cons_self _ _) _ hr)
      (ih (fun a ha b hr2 => himp a (List.mem_cons_of_mem _ ha) b hr2))

theorem forall₂_and_same {α β : Type} {R S : α → β → Prop}
    {l1 : List α} {l2 : List β} (h1 : List.Forall₂ R l1 l2)
    (h2 : List.Forall₂ S l1 l2) :
    List.Forall₂ (fun a b => R a b ∧ S a b) l1 l2 := by
  induction h1 with
  | nil => exact List.Forall₂.nil
  | cons hr hrest ih =>
    cases h2 with
    | cons hs hsrest => exact List.Forall₂.cons ⟨hr, hs⟩ (ih hsrest)

theorem forall₂_mem_left {α β : Type} {R : α → β → Prop}
    {l1 : List α} {l2 : List β} (h : List.Forall₂ R l1 l2) {a : α}
    (ha : a ∈ l1) : ∃ b, R a b := by
  induction h with
  | nil => cases ha
  | cons hr hrest ih =>
    rcases List.mem_cons.mp ha with rfl | ha2
    · exact ⟨_, hr⟩
    · exact ih ha2

/-- `EventsOk` depends only on the subscriptions of the listed events:
worlds that agree on those are interchangeable. -/
theorem eventsOk_transport (cid : Nat) (committed : Bag) {l : List String}
    {cls : List (Option Nat)} (w w2 : World)
    (h : EventsOk cid committed w l cls)
    (hsub : ∀ nm ∈ l, subsFor w2 cid nm = subsFor w cid nm) :
    EventsOk cid committed w2 l cls := by
  apply forall₂_imp_mem h
  intro a ha b hr
  rcases hcb : lookupBag committed (getEventFnName a) with _ | cb
  · cases b with
    | none =>
      simp only [hcb] at hr ⊢
      rw [hsub a ha]
      exact hr
    | some sid =>
      simp only [hcb] at hr
  · cases b with
    | none =>
      simp only [hcb] at hr
    | some sid =>
      simp only [hcb] at hr ⊢
      rw [hsub a ha]
      exact hr

theorem eventsOk_mem (cid : Nat) (committed : Bag) (w : World)
    {l : List String} {cls : List (Option Nat)}
    (h : EventsOk cid committed w l cls) (nm : String) (hnm : nm ∈ l) :
    ∃ cl, (match lookupBag committed (getEventFnName nm), cl with
      | some cb, some sid =>
        subsFor w cid nm = [(⟨sid, cid, nm, cb⟩ : Sub)]
      | none, none => subsFor w cid nm = []
      | _, _ => False) :=
  forall₂_mem_left h hnm

theorem subscribe_fst (w : World) (cid : Nat) (name : String) (h : Value) :
    (w.subscribe cid name h).1 = w.nextSubId := rfl

theorem eventCallsFor_append (name : String) (l1 l2 : List ICall) :
    eventCallsFor name (l1 ++ l2) =
      eventCallsFor name l1 ++ eventCallsFor name l2 :=
  List.filter_append l1 l2

theorem eventCallsFor_single_unsub (nm name : String) (sid : Nat) :
    eventCallsFor nm [ICall.unsub sid name] =
      if name = nm then [ICall.unsub sid name] else [] := by
  by_cases h : name = nm <;> simp [eventCallsFor, h]

theorem eventCallsFor_single_on (nm name : String) (id : Nat)
    (h2 : Option Value) :
    eventCallsFor nm [ICall.on id name h2] =
      if name = nm then [ICall.on id name h2] else [] := by
  by_cases h : name = nm <;> simp [eventCallsFor, h]

theorem eventCallsFor_runPropEffects (nm : String) (control : Option Nat)
    (prev : Option Bag) (props : Bag) (names : List String) :
    eventCallsFor nm (runPropEffects control prev props names) = [] := by
  apply filter_false_eq_nil
  intro c hc
  rcases runPropEffects_mem control prev props names c hc with
    ⟨cid, p, val, _, _, _, rfl⟩
  rfl

/-- The heart of claim C2 for the extended variant: one pass of the
per-event effects preserves the per-event subscription correspondence,
keeps the registry well-formed, touches no other event's subscriptions,
and emits per event exactly the expected teardown-then-subscribe calls. -/
theorem runEventEffects_ext_preserve (cid : Nat) (prevP props : Bag) :
    ∀ (names : List String) (cls : List (Option Nat)) (w : World)
      (cls2 : List (Option Nat)) (w2 : World) (calls : List ICall),
      names.Nodup →
      EventsOk cid prevP w names cls →
      SubIdsOk w →
      runEventEffects .returnUnsub (some cid) (some prevP) props names cls
        w = (cls2, w2, calls) →
      EventsOk cid props w2 names cls2 ∧
      SubIdsOk w2 ∧
      (∀ nm, nm ∉ names → subsFor w2 cid nm = subsFor w cid nm) ∧
      (∀ nm, nm ∉ names → eventCallsFor nm calls = []) ∧
      List.Forall₂ (fun name cl => eventCallsFor name calls =
        expectedEventCalls cid (some prevP) props name cl) names cls := by
  intro names
  induction names with
  | nil =>
    intro cls w cls2 w2 calls hnd hok hids hrun
    cases hok
    have hcls2 : cls2 = [] := (congrArg (fun r => r.1) hrun).symm
    have hw2 : w2 = w := (congrArg (fun r => r.2.1) hrun).symm
    have hcalls : calls = [] := (congrArg (fun r => r.2.2) hrun).symm
    subst hcls2; subst hw2; subst hcalls
    exact ⟨List.Forall₂.nil, hids, fun nm _ => rfl, fun nm _ => rfl,
      List.Forall₂.nil⟩
  | cons name rest ih =>
    intro cls w cls2 w2 calls hnd hok hids hrun
    rw [List.nodup_cons] at hnd
    rcases List.forall₂_cons_left_iff.mp hok with
      ⟨cl, clrest, hrel, hrest, rfl⟩
    by_cases hdep :
        depsChanged (some prevP) props (getEventFnName name) = true
    · -- the effect re-runs: cleanup, then possibly a new subscription
      rcases hcl1 : runCleanup name cl w with ⟨w1, calls1⟩
      rcases heff : runOneEventEffect .returnUnsub (some cid) name
        (lookupBag props (getEventFnName name)) w1 with ⟨newCl, w1b, calls2⟩
      rcases hrec : runEventEffects .returnUnsub (some cid) (some prevP)
        props rest clrest w1b with ⟨clsR, wR, callsR⟩
      have hrun2 : ((newCl :: clsR, wR,
          calls1 ++ calls2 ++ callsR) :
            List (Option Nat) × World × List ICall) = (cls2, w2, calls) := by
        rw [← hrun]
        simp only [runEventEffects, hdep, if_true, List.headD_cons,
          List.tail_cons, hcl1, heff, hrec]
      have hcls2 : cls2 = newCl :: clsR :=
        (congrArg (fun r => r.1) hrun2).symm
      have hw2 : w2 = wR := (congrArg (fun r => r.2.1) hrun2).symm
      have hcalls : calls = calls1 ++ calls2 ++ callsR :=
        (congrArg (fun r => r.2.2) hrun2).symm
      subst hw2
      subst hcls2; subst hcalls
      -- facts about the cleanup step
      have hclean : subsFor w1 cid name = [] ∧
          (∀ nm, nm ≠ name → subsFor w1 cid nm = subsFor w cid nm) ∧
          SubIdsOk w1 ∧
          (calls1 = [] ∨ ∃ sid, calls1 = [ICall.unsub sid name]) := by
        rcases hpcb : lookupBag prevP (getEventFnName name) with _ | cb
        · cases cl with
          | some sid => simp only [hpcb] at hrel
          | none =>
            simp only [hpcb] at hrel
            simp only [runCleanup] at hcl1
            have hw1 : w1 = w := congrArg (fun r => r.1) hcl1.symm
            have hc1 : calls1 = [] := congrArg (fun r => r.2) hcl1.symm
            subst hw1; subst hc1
            exact ⟨hrel, fun nm _ => rfl, hids, Or.inl rfl⟩
        · cases cl with
          | none => simp only [hpcb] at hrel
          | some sid =>
            simp only [hpcb] at hrel
            simp only [runCleanup] at hcl1
            have hw1 : w1 = w.unsubscribe sid :=
              congrArg (fun r => r.1) hcl1.symm
            have hc1 : calls1 = [ICall.unsub sid name] :=
              congrArg (fun r => r.2) hcl1.symm
            subst hw1; subst hc1
            refine ⟨subsFor_unsubscribe_singleton_same w cid name sid cb
                hrel, ?_, SubIdsOk.unsubscribe w sid hids,
              Or.inr ⟨sid, rfl⟩⟩
            intro nm hne
            exact subsFor_unsubscribe_singleton_other w cid name nm sid cb
              hids hrel hne
      rcases hclean with ⟨hw1name, hw1other, hw1ids, hcalls1shape⟩
      have hexp : expectedEventCalls cid (some prevP) props name cl =
          calls1 ++ (match lookupBag props (getEventFnName name) with
            | some cb => [ICall.on cid name (some cb)]
            | none => []) := by
        rcases hpcb : lookupBag prevP (getEventFnName name) with _ | cb
        · cases cl with
          | some sid => simp only [hpcb] at hrel
          | none =>
            simp only [runCleanup] at hcl1
            have hc1 : calls1 = [] := congrArg (fun r => r.2) hcl1.symm
            subst hc1
            simp [expectedEventCalls, hdep]
        · cases cl with
          | none => simp only [hpcb] at hrel
          | some sid =>
            simp only [runCleanup] at hcl1
            have hc1 : calls1 = [ICall.unsub sid name] :=
              congrArg (fun r => r.2) hcl1.symm
            subst hc1
            simp [expectedEventCalls, hdep]
      -- case split on the new handler reference
      rcases hqcb : lookupBag props (getEventFnName name) with _ | cb2
      · -- no handler in the new props: no new subscription
        rw [hqcb] at heff
        simp only [runOneEventEffect] at heff
        have hncl : newCl = none := congrArg (fun r => r.1) heff.symm
        have hw1b : w1b = w1 := congrArg (fun r => r.2.1) heff.symm
        have hc2 : calls2 = [] := congrArg (fun r => r.2.2) heff.symm
        subst hncl; subst hw1b; subst hc2
        rw [hqcb] at hexp
        have hrestok : EventsOk cid prevP w1b rest clrest := by
          apply eventsOk_transport cid prevP w w1b hrest
          intro nm hnm
          exact hw1other nm (fun h2 => hnd.1 (h2 ▸ hnm))
        rcases ih clrest w1b clsR w2 callsR hnd.2 hrestok hw1ids hrec with
          ⟨ihEvents, ihIds, ihUntouched, ihCallsNil, ihForall⟩
        refine ⟨?_, ihIds, ?_, ?_, ?_⟩
        · refine List.Forall₂.cons ?_ ihEvents
          simp only [hqcb]
          rw [ihUntouched name hnd.1]
          exact hw1name
        · intro nm hnm
          rw [List.mem_cons] at hnm
          push_neg at hnm
          rw [ihUntouched nm hnm.2, hw1other nm hnm.1]
        · intro nm hnm
          rw [List.mem_cons] at hnm
          push_neg at hnm
          rw [List.append_nil, eventCallsFor_append, ihCallsNil nm hnm.2,
            List.append_nil]
          rcases hcalls1shape with rfl | ⟨sid, rfl⟩
          · rfl
          · rw [eventCallsFor_single_unsub, if_neg (Ne.symm hnm.1)]
        · refine List.Forall₂.cons ?_ ?_
          · rw [List.append_nil, eventCallsFor_append,
              ihCallsNil name hnd.1, List.append_nil, hexp,
              List.append_nil]
            rcases hcalls1shape with rfl | ⟨sid, rfl⟩
            · rfl
            · rw [eventCallsFor_single_unsub, if_pos rfl]
          · apply forall₂_imp_mem ihForall
            intro a ha b hb
            have hne : a ≠ name := fun h2 => hnd.1 (h2 ▸ ha)
            rw [List.append_nil, eventCallsFor_append, hb]
            rcases hcalls1shape with rfl | ⟨sid, rfl⟩
            · rfl
            · rw [eventCallsFor_single_unsub, if_neg (Ne.symm hne),
                List.nil_append]
      · -- a handler is present in the new props: subscribe afresh
        rw [hqcb] at heff
        simp only [runOneEventEffect] at heff
        have hncl : newCl = some (w1.subscribe cid name cb2).1 :=
          congrArg (fun r => r.1) heff.symm
        have hw1b : w1b = (w1.subscribe cid name cb2).2 :=
          congrArg (fun r => r.2.1) heff.symm
        have hc2 : calls2 = [ICall.on cid name (some cb2)] :=
          congrArg (fun r => r.2.2) heff.symm
        subst hncl; subst hw1b; subst hc2
        rw [hqcb] at hexp
        have hw1bname :
            subsFor (w1.subscribe cid name cb2).2 cid name =
              [(⟨w1.nextSubId, cid, name, cb2⟩ : Sub)] := by
          rw [subsFor_subscribe_same, hw1name, List.nil_append]
        have hw1bother : ∀ nm, nm ≠ name →
            subsFor (w1.subscribe cid name cb2).2 cid nm =
              subsFor w1 cid nm :=
          fun nm hne => subsFor_subscribe_other w1 cid name nm cb2 hne
        have hw1bids : SubIdsOk (w1.subscribe cid name cb2).2 :=
          SubIdsOk.subscribe w1 cid name cb2 hw1ids
        have hrestok : EventsOk cid prevP (w1.subscribe cid name cb2).2
            rest clrest := by
          apply eventsOk_transport cid prevP w _ hrest
          intro nm hnm
          have hne : nm ≠ name := fun h2 => hnd.1 (h2 ▸ hnm)
          rw [hw1bother nm hne, hw1other nm hne]
        rcases ih clrest _ clsR w2 callsR hnd.2 hrestok hw1bids hrec with
          ⟨ihEvents, ihIds, ihUntouched, ihCallsNil, ihForall⟩
        refine ⟨?_, ihIds, ?_, ?_, ?_⟩
        · refine List.Forall₂.cons ?_ ihEvents
          simp only [hqcb, subscribe_fst]
          rw [ihUntouched name hnd.1]
          exact hw1bname
        · intro nm hnm
          rw [List.mem_cons] at hnm
          push_neg at hnm
          rw [ihUntouched nm hnm.2, hw1bother nm hnm.1, hw1other nm hnm.1]
        · intro nm hnm
          rw [List.mem_cons] at hnm
          push_neg at hnm
          rw [eventCallsFor_append, eventCallsFor_append,
            ihCallsNil nm hnm.2, List.append_nil,
            eventCallsFor_single_on nm name cid (some cb2),
            if_neg (Ne.symm hnm.1), List.append_nil]
          rcases hcalls1shape with rfl | ⟨sid, rfl⟩
          · rfl
          · rw [eventCallsFor_single_unsub, if_neg (Ne.symm hnm.1)]
        · refine List.Forall₂.cons ?_ ?_
          · rw [eventCallsFor_append, eventCallsFor_append,
              ihCallsNil name hnd.1, List.append_nil, hexp,
              eventCallsFor_single_on name name cid (some cb2), if_pos rfl]
            rcases hcalls1shape with rfl | ⟨sid, rfl⟩
            · rfl
            · rw [eventCallsFor_single_unsub, if_pos rfl]
          · apply forall₂_imp_mem ihForall
            intro a ha b hb
            have hne : a ≠ name := fun h2 => hnd.1 (h2 ▸ ha)
            rw [eventCallsFor_append, eventCallsFor_append, hb,
              eventCallsFor_single_on a name cid (some cb2),
              if_neg (Ne.symm hne), List.append_nil]
            rcases hcalls1shape with rfl | ⟨sid, rfl⟩
            · rfl
            · rw [eventCallsFor_single_unsub, if_neg (Ne.symm hne),
                List.nil_append]
    · -- the handler reference is unchanged: the effect does not re-run
      rw [Bool.not_eq_true] at hdep
      rcases hrec : runEventEffects .returnUnsub (some cid) (some prevP)
        props rest clrest w with ⟨clsR, wR, callsR⟩
      have hrun2 : ((cl :: clsR, wR, callsR) :
          List (Option Nat) × World × List ICall) = (cls2, w2, calls) := by
        rw [← hrun]
        simp only [runEventEffects, hdep, Bool.false_eq_true, if_false,
          List.headD_cons, List.tail_cons, hrec]
      have hcls2 : cls2 = cl :: clsR := (congrArg (fun r => r.1) hrun2).symm
      have hw2 : w2 = wR := (congrArg (fun r => r.2.1) hrun2).symm
      have hcalls : calls = callsR := (congrArg (fun r => r.2.2) hrun2).symm
      subst hw2
      subst hcls2; subst hcalls
      have heq : lookupBag prevP (getEventFnName name) =
          lookupBag props (getEventFnName name) := by
        simpa [depsChanged, bne_eq_false_iff_eq] using hdep
      rcases ih clrest w clsR w2 calls hnd.2 hrest hids hrec with
        ⟨ihEvents, ihIds, ihUntouched, ihCallsNil, ihForall⟩
      refine ⟨?_, ihIds, ?_, ?_, ?_⟩
      · refine List.Forall₂.cons ?_ ihEvents
        have hfinal : subsFor w2 cid name = subsFor w cid name :=
          ihUntouched name hnd.1
        rcases hpcb : lookupBag prevP (getEventFnName name) with _ | cb
        · cases cl with
          | some sid => simp only [hpcb] at hrel
          | none =>
            simp only [hpcb] at hrel
            simp only [← heq, hpcb]
            rw [hfinal]
            exact hrel
        · cases cl with
          | none => simp only [hpcb] at hrel
          | some sid =>
            simp only [hpcb] at hrel
            simp only [← heq, hpcb]
            rw [hfinal]
            exact hrel
      · intro nm hnm
        rw [List.mem_cons] at hnm
        push_neg at hnm
        exact ihUntouched nm hnm.2
      · intro nm hnm
        rw [List.mem_cons] at hnm
        push_neg at hnm
        exact ihCallsNil nm hnm.2
      · refine List.Forall₂.cons ?_ (forall₂_imp_mem ihForall ?_)
        · rw [ihCallsNil name hnd.1]
          simp [expectedEventCalls, hdep]
        · intro a ha b hb
          exact hb

theorem reactExt_style : reactExt.style = .returnUnsub := rfl

theorem reactExt_events : reactExt.eventNames = eventNames := rfl

theorem subsFor_construct_empty (cid : Nat) (nm : String) :
    subsFor World.empty.construct.2 cid nm = [] := rfl

theorem subIdsOk_construct_empty : SubIdsOk World.empty.construct.2 :=
  ⟨fun sub hs => absurd hs (List.not_mem_nil sub), List.nodup_nil⟩

/-- First-render pass of the per-event effects (extended variant): with no
stored cleanups and no previous render, every event with a provided
callback gets exactly one subscription and stores its unsubscriber. -/
theorem runEventEffects_ext_establish (cid : Nat) (props : Bag) :
    ∀ (names : List String) (w : World) (cls2 : List (Option Nat))
      (w2 : World) (calls : List ICall),
      names.Nodup →
      (∀ nm ∈ names, subsFor w cid nm = []) →
      SubIdsOk w →
      runEventEffects .returnUnsub (some cid) none props names
        (List.replicate names.length none) w = (cls2, w2, calls) →
      EventsOk cid props w2 names cls2 ∧ SubIdsOk w2 ∧
      (∀ nm, nm ∉ names → subsFor w2 cid nm = subsFor w cid nm) := by
  intro names
  induction names with
  | nil =>
    intro w cls2 w2 calls hnd hempty hids hrun
    have hcls2 : cls2 = [] := (congrArg (fun r => r.1) hrun).symm
    have hw2 : w2 = w := (congrArg (fun r => r.2.1) hrun).symm
    subst hcls2; subst hw2
    exact ⟨List.Forall₂.nil, hids, fun nm _ => rfl⟩
  | cons name rest ih =>
    intro w cls2 w2 calls hnd hempty hids hrun
    rw [List.nodup_cons] at hnd
    have hdep : depsChanged none props (getEventFnName name) = true := rfl
    rcases heff : runOneEventEffect .returnUnsub (some cid) name
      (lookupBag props (getEventFnName name)) w with ⟨newCl, w1b, calls2⟩
    rcases hrec : runEventEffects .returnUnsub (some cid) none props rest
      (List.replicate rest.length none) w1b with ⟨clsR, wR, callsR⟩
    have hrun2 : ((newCl :: clsR, wR, [] ++ calls2 ++ callsR) :
        List (Option Nat) × World × List ICall) = (cls2, w2, calls) := by
      rw [← hrun]
      simp only [List.length_cons, List.replicate_succ, runEventEffects,
        hdep, if_true, List.headD_cons, List.tail_cons, runCleanup, heff,
        hrec]
    have hcls2 : cls2 = newCl :: clsR :=
      (congrArg (fun r => r.1) hrun2).symm
    have hw2 : w2 = wR := (congrArg (fun r => r.2.1) hrun2).symm
    subst hw2
    subst hcls2
    have hnamesub : subsFor w cid name = [] :=
      hempty name (List.mem_cons_self name rest)
    rcases hqcb : lookupBag props (getEventFnName name) with _ | cb2
    · rw [hqcb] at heff
      simp only [runOneEventEffect] at heff
      have hncl : newCl = none := congrArg (fun r => r.1) heff.symm
      have hw1b : w1b = w := congrArg (fun r => r.2.1) heff.symm
      subst hncl
      rw [hw1b] at hrec
      rcases ih w clsR w2 callsR hnd.2
        (fun nm hnm => hempty nm (List.mem_cons_of_mem name hnm)) hids
        hrec with ⟨ihE, ihI, ihU⟩
      refine ⟨List.Forall₂.cons ?_ ihE, ihI, ?_⟩
      · simp only [hqcb]
        rw [ihU name hnd.1]
        exact hnamesub
      · intro nm hnm
        rw [List.mem_cons] at hnm
        push_neg at hnm
        exact ihU nm hnm.2
    · rw [hqcb] at heff
      simp only [runOneEventEffect] at heff
      have hncl : newCl = some (w.subscribe cid name cb2).1 :=
        congrArg (fun r => r.1) heff.symm
      have hw1b : w1b = (w.subscribe cid name cb2).2 :=
        congrArg (fun r => r.2.1) heff.symm
      subst hncl; subst hw1b
      have hsubname : subsFor (w.subscribe cid name cb2).2 cid name =
          [(⟨w.nextSubId, cid, name, cb2⟩ : Sub)] := by
        rw [subsFor_subscribe_same, hnamesub, List.nil_append]
      have hsubother : ∀ nm, nm ≠ name →
          subsFor (w.subscribe cid name cb2).2 cid nm =
            subsFor w cid nm :=
        fun nm hne => subsFor_subscribe_other w cid name nm cb2 hne
      rcases ih (w.subscribe cid name cb2).2 clsR w2 callsR hnd.2
        (fun nm hnm => by
          rw [hsubother nm (fun h2 => hnd.1 (h2 ▸ hnm))]
          exact hempty nm (List.mem_cons_of_mem name hnm))
        (SubIdsOk.subscribe w cid name cb2 hids) hrec with ⟨ihE, ihI, ihU⟩
      refine ⟨List.Forall₂.cons ?_ ihE, ihI, ?_⟩
      · simp only [hqcb, subscribe_fst]
        rw [ihU name hnd.1]
        exact hsubname
      · intro nm hnm
        rw [List.mem_cons] at hnm
        push_neg at hnm
        rw [ihU nm hnm.2, hsubother nm hnm.1]

/-- The extended-variant adapter invariant at a commit boundary: the
control exists, the last committed props are recorded, and the
subscription registry matches them event by event. -/
def ExtInvAt (cid : Nat) (prevP : Bag) (s : AdapterState) (w : World) :
    Prop :=
  s.ctrl = some cid ∧ s.prevProps = some prevP ∧
  EventsOk cid prevP w eventNames s.eventCleanups ∧ SubIdsOk w

theorem mount_establishes_ExtInv (props0 : Bag) (s1 : AdapterState)
    (w1 : World) (t1 : List ICall)
    (h : mountAdapter reactExt true props0 = .ok (s1, w1, t1)) :
    ExtInvAt 0 props0 s1 w1 := by
  rw [show mountAdapter reactExt true props0 =
      commitRender reactExt true (initState reactExt) World.empty props0
      from rfl,
    commitRender_mount reactExt (initState reactExt) World.empty props0
      rfl] at h
  rcases hrun : runEventEffects reactExt.style
      (some World.empty.nextInstId) none props0 reactExt.eventNames
      (initState reactExt).eventCleanups World.empty.construct.2 with
    ⟨cls0, w0, calls0⟩
  rw [hrun] at h
  have h2 := Except.ok.inj h
  have hs1 : (⟨some World.empty.nextInstId, some props0, cls0⟩ :
      AdapterState) = s1 := congrArg (fun r => r.1) h2
  have hw1 : w0 = w1 := congrArg (fun r => r.2.1) h2
  subst hs1
  rw [reactExt_style, reactExt_events] at hrun
  rw [show (initState reactExt).eventCleanups =
      List.replicate eventNames.length none from rfl] at hrun
  rcases runEventEffects_ext_establish 0 props0 eventNames
    World.empty.construct.2 cls0 w0 calls0 (by decide)
    (fun nm _ => subsFor_construct_empty 0 nm) subIdsOk_construct_empty
    hrun with ⟨hE, hI, _⟩
  exact ⟨rfl, rfl, hw1 ▸ hE, hw1 ▸ hI⟩

/-- One re-render commit of the extended variant preserves the invariant
and emits, per event, exactly the expected teardown/subscribe calls. -/
theorem commit_preserves_ExtInv (cid : Nat) (prevP : Bag)
    (s : AdapterState) (w : World) (q : Bag) (s2 : AdapterState)
    (w2 : World) (calls : List ICall)
    (hinv : ExtInvAt cid prevP s w)
    (h : commitRender reactExt true s w q = .ok (s2, w2, calls)) :
    ExtInvAt cid q s2 w2 ∧
    List.Forall₂ (fun name cl => eventCallsFor name calls =
      expectedEventCalls cid (some prevP) q name cl) eventNames
      s.eventCleanups := by
  rcases hinv with ⟨hctrl, hprev, hok, hids⟩
  rw [commitRender_re reactExt true s w prevP q hprev] at h
  rcases hrun : runEventEffects reactExt.style s.ctrl (some prevP) q
    reactExt.eventNames s.eventCleanups w with ⟨cls2, wE, callsE⟩
  rw [hrun] at h
  have h2 := Except.ok.inj h
  have hs2 : (⟨s.ctrl, some q, cls2⟩ : AdapterState) = s2 :=
    congrArg (fun r => r.1) h2
  have hw2 : wE = w2 := congrArg (fun r => r.2.1) h2
  have hcalls : runPropEffects s.ctrl (some prevP) q
      reactExt.propertyNames ++ callsE = calls :=
    congrArg (fun r => r.2.2) h2
  subst hs2
  rw [reactExt_style, reactExt_events, hctrl] at hrun
  rcases runEventEffects_ext_preserve cid prevP q eventNames
    s.eventCleanups w cls2 wE callsE (by decide) hok hids hrun with
    ⟨hE, hI, _, _, hF⟩
  constructor
  · exact ⟨hctrl, rfl, hw2 ▸ hE, hw2 ▸ hI⟩
  · apply forall₂_imp_mem hF
    intro a _ b hb
    rw [← hcalls, eventCallsFor_append, eventCallsFor_runPropEffects,
      List.nil_append]
    exact hb

theorem runUpdates_preserves_ExtInv (cid : Nat) :
    ∀ (updates : List Bag) (prevP : Bag) (s : AdapterState) (w : World)
      (s2 : AdapterState) (w2 : World) (t2 : List ICall),
      ExtInvAt cid prevP s w →
      runUpdates reactExt s w updates = .ok (s2, w2, t2) →
      ∃ prev2, ExtInvAt cid prev2 s2 w2 := by
  intro updates
  induction updates with
  | nil =>
    intro prevP s w s2 w2 t2 hinv h
    have h2 := Except.ok.inj h
    have hs : s = s2 := congrArg (fun r => r.1) h2
    have hw : w = w2 := congrArg (fun r => r.2.1) h2
    subst hs; subst hw
    exact ⟨prevP, hinv⟩
  | cons props rest ih =>
    intro prevP s w s2 w2 t2 hinv h
    rcases runUpdates_cons_inv reactExt s w props rest s2 w2 t2 h with
      ⟨s1, w1, t1, t3, hc, hr, rfl⟩
    rcases commit_preserves_ExtInv cid prevP s w props s1 w1 t1 hinv hc
      with ⟨hinv1, _⟩
    exact ih props s1 w1 s2 w2 t3 hinv1 hr

/-- Claim C2 (amended — the claim as stated holds for the extended
variant `src/react.ts`, whose per-event effect returns the `$on`
unsubscriber as its React cleanup; it fails for the base variant
`src/lib/react.ts`, which returns no cleanup — see the counterexample):
at every commit boundary of a mounted extended-variant lifecycle, each
enumerated event has exactly one live subscription when its callback prop
is provided and zero when it is absent; a commit that replaces the
callback reference emits for that event exactly the teardown of the old
subscription followed by the installation of the new one, in that order;
and a commit whose props omit the callback installs no subscription and
leaves none live for that event. -/
theorem C2_subscription_lifecycle (props0 : Bag) (updates : List Bag)
    (s : AdapterState) (w : World) (t : List ICall)
    (hrun : runAdapter reactExt true props0 updates = .ok (s, w, t))
    (cid : Nat) (prevP : Bag) (hctrl : s.ctrl = some cid)
    (hprev : s.prevProps = some prevP) :
    (∀ name ∈ eventNames, (subsFor w cid name).length =
      if (lookupBag prevP (getEventFnName name)).isSome then 1 else 0) ∧
    (∀ q s2 w2 calls,
      commitRender reactExt true s w q = .ok (s2, w2, calls) →
      ∀ name ∈ eventNames,
        (∀ cb cb2, lookupBag prevP (getEventFnName name) = some cb →
          lookupBag q (getEventFnName name) = some cb2 → cb ≠ cb2 →
          ∃ sid, eventCallsFor name calls =
            [ICall.unsub sid name, ICall.on cid name (some cb2)]) ∧
        (lookupBag q (getEventFnName name) = none →
          subsFor w2 cid name = [] ∧
          ∀ id h2, ICall.on id name h2 ∉ calls)) := by
  rcases runAdapter_inv reactExt true props0 updates s w t hrun with
    ⟨s1, w1, t1, t2, hm, hr, rfl⟩
  have hinv1 := mount_establishes_ExtInv props0 s1 w1 t1 hm
  rcases runUpdates_preserves_ExtInv 0 updates props0 s1 w1 s w t2 hinv1
    hr with ⟨prev2, hinv⟩
  have hcid : cid = 0 := by
    rcases hinv with ⟨hc, _, _, _⟩
    rw [hc] at hctrl
    exact (Option.some.inj hctrl).symm
  subst hcid
  have hprev2 : prevP = prev2 := by
    rcases hinv with ⟨_, hp, _, _⟩
    rw [hp] at hprev
    exact (Option.some.inj hprev).symm
  subst hprev2
  rcases hinv with ⟨hc, hp, hE, hI⟩
  constructor
  · intro name hname
    rcases eventsOk_mem 0 prevP w hE name hname with ⟨cl, hentry⟩
    rcases hlk : lookupBag prevP (getEventFnName name) with _ | cb
    · cases cl with
      | some sid => simp only [hlk] at hentry
      | none =>
        simp only [hlk] at hentry
        rw [hentry]
        simp [hlk]
    · cases cl with
      | none => simp only [hlk] at hentry
      | some sid =>
        simp only [hlk] at hentry
        rw [hentry]
        simp [hlk]
  · intro q s2 w2 calls hcommit name hname
    rcases commit_preserves_ExtInv 0 prevP s w q s2 w2 calls
      ⟨hc, hp, hE, hI⟩ hcommit with ⟨hinv2, hF⟩
    rcases forall₂_mem_left (forall₂_and_same hE hF) hname with
      ⟨cl, hentry, hcallsE⟩
    constructor
    · intro cb cb2 hcb hq hne
      cases cl with
      | none => simp only [hcb] at hentry
      | some sid =>
        refine ⟨sid, ?_⟩
        have hd : depsChanged (some prevP) q (getEventFnName name) =
            true := by
          simp only [depsChanged, hcb, hq, bne_iff_ne, ne_eq,
            Option.some.injEq]
          exact hne
        rw [hcallsE]
        simp [expectedEventCalls, hd, hq]
    · intro hq
      constructor
      · rcases hinv2 with ⟨_, _, hE2, _⟩
        rcases eventsOk_mem 0 q w2 hE2 name hname with ⟨cl2, hentry2⟩
        cases cl2 with
        | some sid2 => simp only [hq] at hentry2
        | none =>
          simp only [hq] at hentry2
          exact hentry2
      · intro id h2 hmem
        have hin : ICall.on id name h2 ∈ eventCallsFor name calls :=
          List.mem_filter.mpr ⟨hmem, by simp⟩
        rw [hcallsE] at hin
        cases cl with
        | none => simp [expectedEventCalls, hq] at hin
        | some sid => simp [expectedEventCalls, hq] at hin

/-- Claim C2 witness: mounting the extended variant with
`{onSelect: 5}` yields exactly one live "select" subscription, and the
theorem's per-commit guarantees hold from that state. -/
theorem C2_subscription_lifecycle_witness :
    (∀ name ∈ eventNames,
      (subsFor ⟨1, [0], [⟨0, 0, "select", 5⟩], 1⟩ 0 name).length =
        if (lookupBag [("onSelect", 5)]
          (getEventFnName name)).isSome then 1 else 0) ∧
    (∀ q s2 w2 calls,
      commitRender reactExt true
        ⟨some 0, some [("onSelect", 5)],
          [none, none, none, none, none, none, none, some 0]⟩
        ⟨1, [0], [⟨0, 0, "select", 5⟩], 1⟩ q = .ok (s2, w2, calls) →
      ∀ name ∈ eventNames,
        (∀ cb cb2, lookupBag [("onSelect", 5)]
            (getEventFnName name) = some cb →
          lookupBag q (getEventFnName name) = some cb2 → cb ≠ cb2 →
          ∃ sid, eventCallsFor name calls =
            [ICall.unsub sid name, ICall.on 0 name (some cb2)]) ∧
        (lookupBag q (getEventFnName name) = none →
          subsFor w2 0 name = [] ∧
          ∀ id h2, ICall.on id name h2 ∉ calls)) := by
  exact C2_subscription_lifecycle [("onSelect", 5)] []
    ⟨some 0, some [("onSelect", 5)],
      [none, none, none, none, none, none, none, some 0]⟩
    ⟨1, [0], [⟨0, 0, "select", 5⟩], 1⟩
    [ICall.construct 0 [], ICall.on 0 "select" (some 5)]
    rfl 0 [("onSelect", 5)] rfl rfl

/-- Claim C2 counterexample: the claim as stated fails on the base
variant (`src/lib/react.ts`): its per-event effect never returns the
unsubscriber, so replacing the `onSelect` callback (handler 5 replaced by
handler 6) installs a second "select" subscription without tearing down
the first — two subscriptions exist where the claim requires exactly
one. -/
theorem C2_counterexample_base_variant :
    (runAdapter reactBase true [("onSelect", 5)]
        [[("onSelect", 6)]]).map
      (fun r => (subsFor r.2.1 0 "select").length) = .ok 2 ∧
    (runAdapter reactBase true [("onSelect", 5)]
        [[("onSelect", 6)]]).map
      (fun r => (subsFor r.2.1 0 "select").length) ≠ .ok 1 := by
  constructor
  · rfl
  · intro h
    have h2 : (Except.ok 2 : Except AdapterError Nat) = .ok 1 := by
      rw [← h]
      rfl
    exact absurd (Except.ok.inj h2) (by decide)

end GeocodingAdapter
